import Mathlib

/-!
Shallow embedding of the RTA (real-time audio analyzer) core: the dB↔linear
conversion library, the log-spaced band model, the per-band frame processor,
the bar/line/peak renderers and the spectrogram ring buffer, as implemented in
`src/utils/rtaProcessor.ts`, `src/utils/rtaRender.ts`, `src/types/rta.ts` and
the `useAudioRta` composable.  JavaScript `number` arithmetic is modelled by
real arithmetic (the float rounding itself is not modelled); the JS bit
operation `x | 0` is modelled by truncation toward zero, `Uint16Array` stores
by reduction mod 2^16.  A second, small model (`JsNum`) refines the
conversion functions with the JS `NaN` propagation rules in order to settle
the claims about out-of-domain inputs.
-/

noncomputable section

namespace Rta

/-- JS `x | 0` (ToInt32) for the small, non-wrapping values that occur here:
truncation toward zero. -/
def jsTrunc (x : ℝ) : ℤ := if 0 ≤ x then ⌊x⌋ else -⌊-x⌋

/-! Constants from the top of `rtaProcessor.ts`. -/

def DB_MIN : ℝ := -120
def DB_MAX : ℝ := 0
def DB_RANGE : ℝ := DB_MAX - DB_MIN
def LUT_SIZE : ℕ := 8192
def LUT_SIZE_MINUS_1 : ℕ := LUT_SIZE - 1
def LUT_SCALE : ℝ := (LUT_SIZE_MINUS_1 : ℝ) / DB_RANGE
def DB_TO_LINEAR_FACTOR : ℝ := 0.1
def LINEAR_TO_DB_FACTOR : ℝ := 10
def MIN_LINEAR_POWER : ℝ := (10 : ℝ) ^ (DB_MIN * DB_TO_LINEAR_FACTOR)
def MAX_LINEAR_POWER : ℝ := 1
def LOG_MIN_LINEAR : ℝ := Real.log MIN_LINEAR_POWER
def LOG_MAX_LINEAR : ℝ := Real.log MAX_LINEAR_POWER
def LOG_LINEAR_RANGE : ℝ := LOG_MAX_LINEAR - LOG_MIN_LINEAR

/-- `initializeLUTs`, first loop: `dbToLinearLUT[i] = 10^(db(i)·0.1)` with
`db(i) = DB_MIN + (i / (LUT_SIZE-1)) · DB_RANGE`. -/
def dbToLinearLUT (i : ℕ) : ℝ :=
  (10 : ℝ) ^ ((DB_MIN + ((i : ℝ) / (LUT_SIZE_MINUS_1 : ℝ)) * DB_RANGE) * DB_TO_LINEAR_FACTOR)

/-- `initializeLUTs`, second loop. -/
def linearToDbLUT (i : ℕ) : ℝ :=
  LINEAR_TO_DB_FACTOR *
    Real.logb 10 (Real.exp (LOG_MIN_LINEAR + ((i : ℝ) / (LUT_SIZE_MINUS_1 : ℝ)) * LOG_LINEAR_RANGE))

/-- `dbToLinear` (interpolated LUT path) from `rtaProcessor.ts`. -/
def dbToLinear (db : ℝ) : ℝ :=
  if db ≤ DB_MIN then MIN_LINEAR_POWER
  else if DB_MAX ≤ db then MAX_LINEAR_POWER
  else
    let indexF := (db - DB_MIN) * LUT_SCALE
    let indexLow := jsTrunc indexF
    let indexHigh := indexLow + 1
    let frac := indexF - (indexLow : ℝ)
    if (LUT_SIZE : ℤ) ≤ indexHigh then dbToLinearLUT LUT_SIZE_MINUS_1
    else
      dbToLinearLUT indexLow.toNat +
        frac * (dbToLinearLUT indexHigh.toNat - dbToLinearLUT indexLow.toNat)

/-- `fastDbToLinear` (round to nearest LUT entry) from `rtaProcessor.ts`. -/
def fastDbToLinear (db : ℝ) : ℝ :=
  if db ≤ DB_MIN then MIN_LINEAR_POWER
  else if DB_MAX ≤ db then MAX_LINEAR_POWER
  else dbToLinearLUT (jsTrunc ((db - DB_MIN) * LUT_SCALE + 0.5)).toNat

/-- `linearToDb` (interpolated LUT path) from `rtaProcessor.ts`. -/
def linearToDb (linear : ℝ) : ℝ :=
  if linear ≤ MIN_LINEAR_POWER then DB_MIN
  else if MAX_LINEAR_POWER ≤ linear then DB_MAX
  else
    let logValue := Real.log linear
    let normalized := (logValue - LOG_MIN_LINEAR) / LOG_LINEAR_RANGE
    let indexF := normalized * (LUT_SIZE_MINUS_1 : ℝ)
    let indexLow := jsTrunc indexF
    let indexHigh := indexLow + 1
    let frac := indexF - (indexLow : ℝ)
    if (LUT_SIZE : ℤ) ≤ indexHigh then linearToDbLUT LUT_SIZE_MINUS_1
    else
      linearToDbLUT indexLow.toNat +
        frac * (linearToDbLUT indexHigh.toNat - linearToDbLUT indexLow.toNat)

/-- `fastLinearToDb` (round to nearest LUT entry) from `rtaProcessor.ts`. -/
def fastLinearToDb (linear : ℝ) : ℝ :=
  if linear ≤ MIN_LINEAR_POWER then DB_MIN
  else if MAX_LINEAR_POWER ≤ linear then DB_MAX
  else
    let logValue := Real.log linear
    let index :=
      jsTrunc ((logValue - LOG_MIN_LINEAR) / LOG_LINEAR_RANGE * (LUT_SIZE_MINUS_1 : ℝ) + 0.5)
    linearToDbLUT (if index < (LUT_SIZE : ℤ) then index.toNat else LUT_SIZE_MINUS_1)

/-- `dbToLinearExact` from `rtaProcessor.ts`. -/
def dbToLinearExact (db : ℝ) : ℝ := (10 : ℝ) ^ (db * DB_TO_LINEAR_FACTOR)

/-- `linearToDbExact` from `rtaProcessor.ts`. -/
def linearToDbExact (linear : ℝ) : ℝ := LINEAR_TO_DB_FACTOR * Real.logb 10 linear

/-! Basic facts about the constants and the tables. -/

theorem DB_RANGE_eq : DB_RANGE = 120 := by norm_num [DB_RANGE, DB_MIN, DB_MAX]

theorem MIN_LINEAR_POWER_eq : MIN_LINEAR_POWER = 1 / 10 ^ (12 : ℕ) := by
  have h : DB_MIN * DB_TO_LINEAR_FACTOR = (-12 : ℝ) := by
    norm_num [DB_MIN, DB_TO_LINEAR_FACTOR]
  rw [MIN_LINEAR_POWER, h]
  rw [show ((-12 : ℝ)) = ((-12 : ℤ) : ℝ) by norm_num, Real.rpow_intCast]
  norm_num

theorem MIN_LINEAR_POWER_pos : 0 < MIN_LINEAR_POWER := by
  rw [MIN_LINEAR_POWER_eq]; positivity

theorem MIN_LINEAR_POWER_lt_one : MIN_LINEAR_POWER < 1 := by
  rw [MIN_LINEAR_POWER_eq]; norm_num

theorem log_ten_pos : 0 < Real.log 10 := by
  have := Real.log_pos (by norm_num : (1 : ℝ) < 10)
  exact this

theorem LOG_MIN_LINEAR_eq : LOG_MIN_LINEAR = -12 * Real.log 10 := by
  have h : DB_MIN * DB_TO_LINEAR_FACTOR = (-12 : ℝ) := by
    norm_num [DB_MIN, DB_TO_LINEAR_FACTOR]
  rw [LOG_MIN_LINEAR, MIN_LINEAR_POWER, h, Real.log_rpow (by norm_num : (0:ℝ) < 10)]

theorem LOG_LINEAR_RANGE_eq : LOG_LINEAR_RANGE = 12 * Real.log 10 := by
  rw [LOG_LINEAR_RANGE, LOG_MAX_LINEAR, MAX_LINEAR_POWER, Real.log_one, LOG_MIN_LINEAR_eq]
  ring

/-- The dB value sampled by LUT entry `i`. -/
def dbAt (i : ℕ) : ℝ := DB_MIN + ((i : ℝ) / (LUT_SIZE_MINUS_1 : ℝ)) * DB_RANGE

theorem dbToLinearLUT_eq_exact (i : ℕ) : dbToLinearLUT i = dbToLinearExact (dbAt i) := rfl

/-- The inverse table is exactly affine in its index: entry `i` holds the dB
value `DB_MIN + (i/(LUT_SIZE-1))·DB_RANGE`. -/
theorem linearToDbLUT_eq (i : ℕ) : linearToDbLUT i = dbAt i := by
  have hln : Real.log 10 ≠ 0 := ne_of_gt log_ten_pos
  rw [linearToDbLUT, Real.logb, Real.log_exp, LOG_MIN_LINEAR_eq, LOG_LINEAR_RANGE_eq,
    dbAt, DB_RANGE_eq, LINEAR_TO_DB_FACTOR, DB_MIN]
  field_simp
  ring

/-! Analytic helper lemmas for the quantization-error bounds. -/

theorem log_ten_le_nine : Real.log 10 ≤ 9 := by
  have h := Real.log_le_sub_one_of_pos (by norm_num : (0:ℝ) < 10)
  linarith

theorem dbToLinearExact_eq_exp (x : ℝ) :
    dbToLinearExact x = Real.exp (Real.log 10 * (x * DB_TO_LINEAR_FACTOR)) := by
  rw [dbToLinearExact, Real.rpow_def_of_pos (by norm_num : (0:ℝ) < 10)]

theorem dbToLinearExact_pos (x : ℝ) : 0 < dbToLinearExact x := by
  rw [dbToLinearExact_eq_exp]; exact Real.exp_pos _

theorem dbToLinearExact_lt_dbToLinearExact {x y : ℝ} (h : x < y) :
    dbToLinearExact x < dbToLinearExact y := by
  rw [dbToLinearExact, dbToLinearExact]
  exact Real.rpow_lt_rpow_left_iff (by norm_num : (1:ℝ) < 10) |>.2
    (by rw [DB_TO_LINEAR_FACTOR]; linarith)

theorem dbToLinearExact_le_dbToLinearExact {x y : ℝ} (h : x ≤ y) :
    dbToLinearExact x ≤ dbToLinearExact y := by
  rcases eq_or_lt_of_le h with rfl | h
  · exact le_refl _
  · exact le_of_lt (dbToLinearExact_lt_dbToLinearExact h)

/-- `|e^u - e^v| ≤ |u - v|` for non-positive exponents. -/
theorem abs_exp_sub_exp_le {u v : ℝ} (hu : u ≤ 0) (hv : v ≤ 0) :
    |Real.exp u - Real.exp v| ≤ |u - v| := by
  wlog hvu : v ≤ u generalizing u v
  · rw [abs_sub_comm, abs_sub_comm u v]; exact this hv hu (le_of_not_le hvu)
  have key : Real.exp u - Real.exp v ≤ u - v := by
    have h1 : Real.exp v = Real.exp u * Real.exp (v - u) := by
      rw [← Real.exp_add]; ring_nf
    have h2 : (v - u) + 1 ≤ Real.exp (v - u) := Real.add_one_le_exp _
    have h3 : Real.exp u * ((v - u) + 1) ≤ Real.exp u * Real.exp (v - u) :=
      mul_le_mul_of_nonneg_left h2 (le_of_lt (Real.exp_pos u))
    have h4 : Real.exp u ≤ 1 := Real.exp_le_one_iff.2 hu
    nlinarith [Real.exp_pos u]
  have hnn : 0 ≤ Real.exp u - Real.exp v := by
    have := Real.exp_le_exp.2 hvu
    linarith
  rw [abs_of_nonneg hnn, abs_of_nonneg (by linarith : (0:ℝ) ≤ u - v)]
  exact key

/-- Error of replacing the exact conversion at `x` by the exact conversion at a
nearby `y`, both in `[-120, 0]`. -/
theorem dbToLinearExact_close {x y d : ℝ} (hx0 : x ≤ 0) (hy0 : y ≤ 0)
    (hd : |x - y| ≤ d) : |dbToLinearExact x - dbToLinearExact y| ≤ Real.log 10 / 10 * d := by
  rw [dbToLinearExact_eq_exp, dbToLinearExact_eq_exp]
  have hL := log_ten_pos
  have hu : Real.log 10 * (x * DB_TO_LINEAR_FACTOR) ≤ 0 := by
    rw [DB_TO_LINEAR_FACTOR]; nlinarith
  have hv : Real.log 10 * (y * DB_TO_LINEAR_FACTOR) ≤ 0 := by
    rw [DB_TO_LINEAR_FACTOR]; nlinarith
  calc |Real.exp (Real.log 10 * (x * DB_TO_LINEAR_FACTOR)) -
      Real.exp (Real.log 10 * (y * DB_TO_LINEAR_FACTOR))|
      ≤ |Real.log 10 * (x * DB_TO_LINEAR_FACTOR) - Real.log 10 * (y * DB_TO_LINEAR_FACTOR)| :=
        abs_exp_sub_exp_le hu hv
    _ = Real.log 10 / 10 * |x - y| := by
        rw [show Real.log 10 * (x * DB_TO_LINEAR_FACTOR) -
            Real.log 10 * (y * DB_TO_LINEAR_FACTOR) = Real.log 10 / 10 * (x - y) by
          rw [DB_TO_LINEAR_FACTOR]; ring]
        rw [abs_mul, abs_of_nonneg (by positivity : (0:ℝ) ≤ Real.log 10 / 10)]
    _ ≤ Real.log 10 / 10 * d := by
        apply mul_le_mul_of_nonneg_left hd (by positivity)

/-! Interior-branch characterizations of the conversion functions. -/

theorem dbAt_le_zero {i : ℕ} (h : i ≤ 8191) : dbAt i ≤ 0 := by
  rw [dbAt, DB_RANGE_eq, DB_MIN, LUT_SIZE_MINUS_1, LUT_SIZE]
  have : (i : ℝ) ≤ 8191 := by exact_mod_cast h
  norm_num
  nlinarith

theorem dbAt_neg120_le {i : ℕ} : (-120 : ℝ) ≤ dbAt i := by
  rw [dbAt, DB_RANGE_eq, DB_MIN, LUT_SIZE_MINUS_1, LUT_SIZE]
  have : (0:ℝ) ≤ (i : ℝ) := Nat.cast_nonneg i
  norm_num
  positivity

/-- `fastDbToLinear` on the open interior returns the exact value at a grid
point within half a LUT step of the input. -/
theorem fastDbToLinear_interior {db : ℝ} (h1 : DB_MIN < db) (h2 : db < DB_MAX) :
    ∃ j : ℕ, j ≤ 8191 ∧ |dbAt j - db| ≤ 60 / 8191 ∧
      fastDbToLinear db = dbToLinearExact (dbAt j) := by
  have hx0 : (0:ℝ) < (db - DB_MIN) * LUT_SCALE := by
    rw [LUT_SCALE, DB_RANGE_eq, LUT_SIZE_MINUS_1, LUT_SIZE]
    have : 0 < db - DB_MIN := by linarith
    positivity
  set x : ℝ := (db - DB_MIN) * LUT_SCALE with hxdef
  have hxhi : x < 8191 := by
    rw [hxdef, LUT_SCALE, DB_RANGE_eq, LUT_SIZE_MINUS_1, LUT_SIZE, DB_MIN]
    rw [DB_MAX] at h2
    rw [DB_MIN] at h1
    norm_num
    nlinarith
  have htr : jsTrunc (x + 0.5) = ⌊x + 0.5⌋ := by
    rw [jsTrunc, if_pos (by linarith : (0:ℝ) ≤ x + 0.5)]
  have hj0 : (0:ℤ) ≤ ⌊x + 0.5⌋ := Int.floor_nonneg.2 (by linarith)
  have hjle : ⌊x + 0.5⌋ ≤ 8191 := by
    have : (⌊x + 0.5⌋ : ℝ) ≤ x + 0.5 := Int.floor_le _
    have h8 : (⌊x + 0.5⌋ : ℝ) < 8192 := by linarith
    exact_mod_cast Int.lt_add_one_iff.1 (by exact_mod_cast h8)
  refine ⟨⌊x + 0.5⌋.toNat, ?_, ?_, ?_⟩
  · omega
  · have hcast : ((⌊x + 0.5⌋.toNat : ℕ) : ℝ) = (⌊x + 0.5⌋ : ℝ) := by
      have h := Int.toNat_of_nonneg hj0
      exact_mod_cast h
    have hlow : x - 0.5 < (⌊x + 0.5⌋ : ℝ) := by
      have := Int.lt_floor_add_one (x + 0.5)
      linarith
    have hhigh : (⌊x + 0.5⌋ : ℝ) ≤ x + 0.5 := Int.floor_le _
    have hdbx : db = dbAt 0 + x * (120 / 8191) := by
      rw [dbAt, hxdef, LUT_SCALE, DB_RANGE_eq, LUT_SIZE_MINUS_1, LUT_SIZE, DB_MIN]
      norm_num
      ring
    have hdbAtj : dbAt ⌊x + 0.5⌋.toNat = dbAt 0 + (⌊x + 0.5⌋ : ℝ) * (120 / 8191) := by
      rw [dbAt, dbAt, hcast, LUT_SIZE_MINUS_1, LUT_SIZE, DB_RANGE_eq]
      norm_num
      ring
    rw [hdbAtj, hdbx]
    have : dbAt 0 + (⌊x + 0.5⌋ : ℝ) * (120 / 8191) - (dbAt 0 + x * (120 / 8191)) =
        ((⌊x + 0.5⌋ : ℝ) - x) * (120 / 8191) := by ring
    rw [this, abs_mul, abs_of_nonneg (by norm_num : (0:ℝ) ≤ 120 / 8191)]
    have habs : |(⌊x + 0.5⌋ : ℝ) - x| ≤ 1 / 2 := by
      rw [abs_le]; constructor <;> [linarith; linarith]
    calc |(⌊x + 0.5⌋ : ℝ) - x| * (120 / 8191) ≤ (1/2) * (120 / 8191) := by
          apply mul_le_mul_of_nonneg_right habs (by norm_num)
      _ = 60 / 8191 := by norm_num
  · rw [fastDbToLinear, if_neg (by linarith), if_neg (by linarith), htr,
      dbToLinearLUT_eq_exact]

theorem dbAt_zero : dbAt 0 = -120 := by
  rw [dbAt, DB_MIN]; norm_num

theorem dbAt_cast {j : ℤ} (hj : 0 ≤ j) : dbAt j.toNat = -120 + (j : ℝ) * (120 / 8191) := by
  have hc : ((j.toNat : ℕ) : ℝ) = (j : ℝ) := by
    have h := Int.toNat_of_nonneg hj
    exact_mod_cast h
  rw [dbAt, DB_MIN, DB_RANGE_eq, LUT_SIZE_MINUS_1, LUT_SIZE, hc]
  norm_num
  ring

/-- Interior branch of the interpolated `dbToLinear`: a convex combination of
two adjacent table entries that bracket the input. -/
theorem dbToLinear_interior {db : ℝ} (h1 : DB_MIN < db) (h2 : db < DB_MAX) :
    ∃ (i : ℕ) (t : ℝ), i + 1 ≤ 8191 ∧ 0 ≤ t ∧ t < 1 ∧
      db = dbAt i + t * (120 / 8191) ∧
      dbToLinear db = dbToLinearLUT i + t * (dbToLinearLUT (i + 1) - dbToLinearLUT i) := by
  have hx0 : (0:ℝ) < (db - DB_MIN) * LUT_SCALE := by
    rw [LUT_SCALE, DB_RANGE_eq, LUT_SIZE_MINUS_1, LUT_SIZE]
    have : 0 < db - DB_MIN := by linarith
    positivity
  set x : ℝ := (db - DB_MIN) * LUT_SCALE with hxdef
  have hxhi : x < 8191 := by
    rw [hxdef, LUT_SCALE, DB_RANGE_eq, LUT_SIZE_MINUS_1, LUT_SIZE, DB_MIN]
    rw [DB_MAX] at h2
    rw [DB_MIN] at h1
    norm_num
    nlinarith
  have htr : jsTrunc x = ⌊x⌋ := by rw [jsTrunc, if_pos (le_of_lt hx0)]
  have hk0 : (0:ℤ) ≤ ⌊x⌋ := Int.floor_nonneg.2 (le_of_lt hx0)
  have hkle : ⌊x⌋ ≤ 8190 := by
    have hfl : (⌊x⌋ : ℝ) ≤ x := Int.floor_le _
    have h8 : (⌊x⌋ : ℝ) < 8191 := by linarith
    have : ⌊x⌋ < (8191 : ℤ) := by exact_mod_cast h8
    omega
  have hcast : ((⌊x⌋.toNat : ℕ) : ℝ) = (⌊x⌋ : ℝ) := by
    have h := Int.toNat_of_nonneg hk0
    exact_mod_cast h
  have hsucc : (⌊x⌋ + 1).toNat = ⌊x⌋.toNat + 1 := by omega
  refine ⟨⌊x⌋.toNat, x - (⌊x⌋ : ℝ), by omega, by
      have := Int.floor_le x; linarith, by
      have := Int.lt_floor_add_one x; linarith, ?_, ?_⟩
  · have hdbx : db = -120 + x * (120 / 8191) := by
      rw [hxdef, LUT_SCALE, DB_RANGE_eq, LUT_SIZE_MINUS_1, LUT_SIZE, DB_MIN]
      norm_num
      ring
    have hAt : dbAt ⌊x⌋.toNat = -120 + (⌊x⌋ : ℝ) * (120 / 8191) := dbAt_cast hk0
    rw [hAt, hdbx]; ring
  · rw [dbToLinear, if_neg (by linarith), if_neg (by linarith)]
    simp only [htr]
    rw [if_neg (by rw [LUT_SIZE]; omega), hsucc]

/-- Fractional index used by the `linearToDb` paths (proof-layer abbreviation
of the expression computed in the source). -/
def linIndexF (x : ℝ) : ℝ :=
  (Real.log x - LOG_MIN_LINEAR) / LOG_LINEAR_RANGE * (LUT_SIZE_MINUS_1 : ℝ)

theorem linIndexF_pos {x : ℝ} (h1 : MIN_LINEAR_POWER < x) : 0 < linIndexF x := by
  have hlog : LOG_MIN_LINEAR < Real.log x := by
    rw [LOG_MIN_LINEAR]
    exact Real.log_lt_log MIN_LINEAR_POWER_pos h1
  rw [linIndexF, LOG_LINEAR_RANGE_eq, LUT_SIZE_MINUS_1, LUT_SIZE]
  have hL := log_ten_pos
  have h12 : (0:ℝ) < 12 * Real.log 10 := by positivity
  norm_num
  exact div_pos (by linarith) h12

theorem linIndexF_lt {x : ℝ} (h0 : MIN_LINEAR_POWER < x) (h2 : x < MAX_LINEAR_POWER) :
    linIndexF x < 8191 := by
  have hxpos : 0 < x := lt_trans MIN_LINEAR_POWER_pos h0
  have hlog : Real.log x < 0 := Real.log_neg hxpos (by rw [MAX_LINEAR_POWER] at h2; exact h2)
  rw [linIndexF, LOG_MIN_LINEAR_eq, LOG_LINEAR_RANGE_eq, LUT_SIZE_MINUS_1, LUT_SIZE]
  have hL := log_ten_pos
  have h12 : (0:ℝ) < 12 * Real.log 10 := by positivity
  norm_num
  rw [div_lt_one h12]
  linarith

/-- For positive inputs the exact inverse conversion is affine in the
fractional LUT index. -/
theorem linearToDbExact_eq_indexF {x : ℝ} (_hx : 0 < x) :
    linearToDbExact x = -120 + linIndexF x * (120 / 8191) := by
  have hL := log_ten_pos
  have hLne : Real.log 10 ≠ 0 := ne_of_gt hL
  rw [linearToDbExact, Real.logb, linIndexF, LOG_MIN_LINEAR_eq, LOG_LINEAR_RANGE_eq,
    LINEAR_TO_DB_FACTOR, LUT_SIZE_MINUS_1, LUT_SIZE]
  norm_num
  field_simp
  ring

/-- On the open interior the interpolated `linearToDb` agrees exactly with
`linearToDbExact` (the inverse table is affine in its index, so linear
interpolation is exact). -/
theorem linearToDb_interior {x : ℝ} (h1 : MIN_LINEAR_POWER < x) (h2 : x < MAX_LINEAR_POWER) :
    linearToDb x = linearToDbExact x := by
  have hxpos : 0 < x := lt_trans MIN_LINEAR_POWER_pos h1
  have hf0 : 0 < linIndexF x := linIndexF_pos h1
  have hf1 : linIndexF x < 8191 := linIndexF_lt h1 h2
  have hxF : (Real.log x - LOG_MIN_LINEAR) / LOG_LINEAR_RANGE * (LUT_SIZE_MINUS_1 : ℝ) =
      linIndexF x := rfl
  rw [linearToDb, if_neg (by linarith), if_neg (by linarith)]
  simp only [hxF]
  have htr : jsTrunc (linIndexF x) = ⌊linIndexF x⌋ := by
    rw [jsTrunc, if_pos (le_of_lt hf0)]
  rw [htr]
  have hk0 : (0:ℤ) ≤ ⌊linIndexF x⌋ := Int.floor_nonneg.2 (le_of_lt hf0)
  have hkle : ⌊linIndexF x⌋ ≤ 8190 := by
    have hfl : (⌊linIndexF x⌋ : ℝ) ≤ linIndexF x := Int.floor_le _
    have h8 : (⌊linIndexF x⌋ : ℝ) < 8191 := by linarith
    have : ⌊linIndexF x⌋ < (8191 : ℤ) := by exact_mod_cast h8
    omega
  rw [if_neg (by rw [LUT_SIZE]; omega)]
  have hsucc : (⌊linIndexF x⌋ + 1).toNat = ⌊linIndexF x⌋.toNat + 1 := by omega
  rw [hsucc, linearToDbLUT_eq, linearToDbLUT_eq, dbAt_cast hk0]
  have hsucc' : dbAt (⌊linIndexF x⌋.toNat + 1) = -120 + ((⌊linIndexF x⌋ : ℝ) + 1) * (120 / 8191) := by
    have : (⌊linIndexF x⌋.toNat + 1 : ℕ) = (⌊linIndexF x⌋ + 1).toNat := by omega
    rw [this, dbAt_cast (by omega)]
    push_cast
    ring
  rw [hsucc', linearToDbExact_eq_indexF hxpos]
  ring

/-- On the open interior `fastLinearToDb` is within half a LUT step of the
exact inverse conversion. -/
theorem fastLinearToDb_interior {x : ℝ} (h1 : MIN_LINEAR_POWER < x) (h2 : x < MAX_LINEAR_POWER) :
    |fastLinearToDb x - linearToDbExact x| ≤ 60 / 8191 := by
  have hxpos : 0 < x := lt_trans MIN_LINEAR_POWER_pos h1
  have hf0 : 0 < linIndexF x := linIndexF_pos h1
  have hf1 : linIndexF x < 8191 := linIndexF_lt h1 h2
  have hxF : (Real.log x - LOG_MIN_LINEAR) / LOG_LINEAR_RANGE * (LUT_SIZE_MINUS_1 : ℝ) =
      linIndexF x := rfl
  rw [fastLinearToDb, if_neg (by linarith), if_neg (by linarith)]
  simp only [hxF]
  have htr : jsTrunc (linIndexF x + 0.5) = ⌊linIndexF x + 0.5⌋ := by
    rw [jsTrunc, if_pos (by linarith)]
  rw [htr]
  have hj0 : (0:ℤ) ≤ ⌊linIndexF x + 0.5⌋ := Int.floor_nonneg.2 (by linarith)
  have hjle : ⌊linIndexF x + 0.5⌋ ≤ 8191 := by
    have hfl : (⌊linIndexF x + 0.5⌋ : ℝ) ≤ linIndexF x + 0.5 := Int.floor_le _
    have h8 : (⌊linIndexF x + 0.5⌋ : ℝ) < 8192 := by linarith
    have : ⌊linIndexF x + 0.5⌋ < (8192 : ℤ) := by exact_mod_cast h8
    omega
  rw [if_pos (by rw [LUT_SIZE]; omega), linearToDbLUT_eq, dbAt_cast hj0,
    linearToDbExact_eq_indexF hxpos]
  have hlow : linIndexF x - 0.5 < (⌊linIndexF x + 0.5⌋ : ℝ) := by
    have := Int.lt_floor_add_one (linIndexF x + 0.5)
    linarith
  have hhigh : (⌊linIndexF x + 0.5⌋ : ℝ) ≤ linIndexF x + 0.5 := Int.floor_le _
  have heq : -120 + (⌊linIndexF x + 0.5⌋ : ℝ) * (120 / 8191) -
      (-120 + linIndexF x * (120 / 8191)) =
      ((⌊linIndexF x + 0.5⌋ : ℝ) - linIndexF x) * (120 / 8191) := by ring
  rw [heq, abs_mul, abs_of_nonneg (by norm_num : (0:ℝ) ≤ 120 / 8191)]
  have habs : |(⌊linIndexF x + 0.5⌋ : ℝ) - linIndexF x| ≤ 1 / 2 := by
    rw [abs_le]; constructor <;> [linarith; linarith]
  calc |(⌊linIndexF x + 0.5⌋ : ℝ) - linIndexF x| * (120 / 8191) ≤ (1/2) * (120 / 8191) := by
        apply mul_le_mul_of_nonneg_right habs (by norm_num)
    _ = 60 / 8191 := by norm_num

theorem dbAt_succ (i : ℕ) : dbAt (i + 1) = dbAt i + 120 / 8191 := by
  rw [dbAt, dbAt, DB_RANGE_eq, LUT_SIZE_MINUS_1, LUT_SIZE]
  push_cast
  norm_num
  ring

theorem log_dbToLinearExact (z : ℝ) :
    Real.log (dbToLinearExact z) = Real.log 10 * (z * DB_TO_LINEAR_FACTOR) := by
  rw [dbToLinearExact_eq_exp, Real.log_exp]

theorem linearToDbExact_def' (x : ℝ) :
    linearToDbExact x = 10 * Real.log x / Real.log 10 := by
  rw [linearToDbExact, LINEAR_TO_DB_FACTOR, Real.logb]
  ring

/-- The exact conversions are mutually inverse. -/
theorem linearToDbExact_dbToLinearExact (z : ℝ) :
    linearToDbExact (dbToLinearExact z) = z := by
  have hLne : Real.log 10 ≠ 0 := ne_of_gt log_ten_pos
  rw [linearToDbExact_def', log_dbToLinearExact, DB_TO_LINEAR_FACTOR]
  field_simp
  ring

theorem dbToLinearExact_zero : dbToLinearExact 0 = 1 := by
  rw [dbToLinearExact]
  norm_num

theorem linearToDbExact_mono {u v : ℝ} (hu : 0 < u) (huv : u ≤ v) :
    linearToDbExact u ≤ linearToDbExact v := by
  rw [linearToDbExact_def', linearToDbExact_def']
  have hL := log_ten_pos
  have := Real.log_le_log hu huv
  apply div_le_div_of_nonneg_right ?_ (le_of_lt hL) |>.trans_eq rfl
  linarith

/-- Second-order bound used in the round-trip estimate: `e^s ≤ 1 + 2s` for
`0 ≤ s ≤ 1/2`. -/
theorem exp_le_one_add_two_mul {s : ℝ} (h0 : 0 ≤ s) (h2 : s ≤ 1/2) :
    Real.exp s ≤ 1 + 2 * s := by
  have h1 := Real.add_one_le_exp (-s)
  have hpos := Real.exp_pos s
  have hinv : Real.exp (-s) = (Real.exp s)⁻¹ := Real.exp_neg s
  rw [hinv] at h1
  have hkey : (1 - s) * Real.exp s ≤ 1 := by
    have := mul_le_mul_of_nonneg_right h1 (le_of_lt hpos)
    rw [inv_mul_cancel₀ (ne_of_gt hpos)] at this
    linarith
  nlinarith [mul_nonneg h0 (by linarith : (0:ℝ) ≤ 1 - 2 * s)]

set_option maxHeartbeats 1000000 in
/-- C4 (claim): round-trip `linearToDb (dbToLinear db)` is within one LUT
quantization step (`DB_RANGE/8192` = `120/8192` dB) of `db`, for `db` in
`[-120, 0]`. -/
theorem C4_roundtrip_within_step (db : ℝ) (hlo : -120 ≤ db) (hhi : db ≤ 0) :
    |linearToDb (dbToLinear db) - db| ≤ DB_RANGE / 8192 := by
  rw [DB_RANGE_eq]
  by_cases hA : db ≤ DB_MIN
  · have hdb : db = -120 := le_antisymm (by rw [DB_MIN] at hA; exact hA) hlo
    rw [dbToLinear, if_pos hA, linearToDb, if_pos (le_refl _), DB_MIN, hdb]
    norm_num
  by_cases hB : DB_MAX ≤ db
  · have hdb : db = 0 := le_antisymm hhi (by rw [DB_MAX] at hB; exact hB)
    rw [dbToLinear, if_neg hA, if_pos hB, linearToDb,
      if_neg (by rw [MAX_LINEAR_POWER]; exact not_le.2 MIN_LINEAR_POWER_lt_one),
      if_pos (le_refl _), DB_MAX, hdb]
    norm_num
  have h1 : DB_MIN < db := lt_of_not_le hA
  have h2 : db < DB_MAX := lt_of_not_le hB
  obtain ⟨i, t, hi81, ht0, ht1, hdbeq, hval⟩ := dbToLinear_interior h1 h2
  have hab : dbAt (i + 1) = dbAt i + 120 / 8191 := dbAt_succ i
  have ha0 : (-120 : ℝ) ≤ dbAt i := dbAt_neg120_le
  have hb0 : dbAt (i + 1) ≤ 0 := dbAt_le_zero hi81
  have hadb : dbAt i ≤ db := by rw [hdbeq]; nlinarith
  have hdbb : db < dbAt (i + 1) := by rw [hdbeq, hab]; nlinarith
  have haltb : dbAt i < dbAt (i + 1) := by rw [hab]; norm_num
  have hfab : dbToLinearExact (dbAt i) < dbToLinearExact (dbAt (i + 1)) :=
    dbToLinearExact_lt_dbToLinearExact haltb
  set fa := dbToLinearExact (dbAt i) with hfadef
  set fb := dbToLinearExact (dbAt (i + 1)) with hfbdef
  have hfa_pos : 0 < fa := dbToLinearExact_pos _
  have hfb_pos : 0 < fb := dbToLinearExact_pos _
  set y := fa + t * (fb - fa) with hydef
  have hyval : dbToLinear db = y := by
    rw [hval, dbToLinearLUT_eq_exact, dbToLinearLUT_eq_exact]
  have hy_lo : fa ≤ y := by nlinarith
  have hy_hi : y < fb := by nlinarith
  -- convexity: the chord lies above the exact exponential
  have hconv : dbToLinearExact db ≤ y := by
    have hL := log_ten_pos
    set u := Real.log 10 * (dbAt i * DB_TO_LINEAR_FACTOR) with hudef
    set v := Real.log 10 * (dbAt (i + 1) * DB_TO_LINEAR_FACTOR) with hvdef
    have hdb' : db = (1 - t) * dbAt i + t * dbAt (i + 1) := by
      rw [hdbeq, hab]; ring
    have hexp : Real.exp ((1 - t) * u + t * v) ≤ (1 - t) * Real.exp u + t * Real.exp v :=
      convexOn_exp.2 (Set.mem_univ _) (Set.mem_univ _) (by linarith) ht0 (by ring)
    have hleft : dbToLinearExact db = Real.exp ((1 - t) * u + t * v) := by
      rw [dbToLinearExact_eq_exp, hdb', hudef, hvdef]
      congr 1
      ring
    have hright : (1 - t) * Real.exp u + t * Real.exp v = y := by
      rw [hydef, hfadef, hfbdef, dbToLinearExact_eq_exp, dbToLinearExact_eq_exp, hudef, hvdef]
      ring
    rw [hleft, ← hright]
    exact hexp
  have hfdb_pos : 0 < dbToLinearExact db := dbToLinearExact_pos db
  have hymin : MIN_LINEAR_POWER < y := by
    have hmin : dbToLinearExact DB_MIN < dbToLinearExact db :=
      dbToLinearExact_lt_dbToLinearExact h1
    have hmineq : dbToLinearExact DB_MIN = MIN_LINEAR_POWER := rfl
    linarith [hconv, hmin, hmineq ▸ hmin]
  have hymax : y < MAX_LINEAR_POWER := by
    have hble : fb ≤ dbToLinearExact 0 := dbToLinearExact_le_dbToLinearExact hb0
    rw [dbToLinearExact_zero] at hble
    rw [MAX_LINEAR_POWER]
    linarith
  have hexact : linearToDb y = linearToDbExact y := linearToDb_interior hymin hymax
  rw [hyval, hexact]
  have hy_pos : 0 < y := lt_trans MIN_LINEAR_POWER_pos hymin
  -- lower bound: the chord overestimates, so the round trip never undershoots
  have hlow : db ≤ linearToDbExact y := by
    have := linearToDbExact_mono hfdb_pos hconv
    rwa [linearToDbExact_dbToLinearExact] at this
  rw [abs_le]
  constructor
  · linarith
  rcases le_or_lt (1 / 8192 : ℝ) t with h1t | h1t
  · -- t ≥ 1/8192: bound through the right endpoint
    have hup : linearToDbExact y ≤ dbAt (i + 1) := by
      have := linearToDbExact_mono hy_pos (le_of_lt hy_hi)
      rwa [hfbdef, linearToDbExact_dbToLinearExact] at this
    have : dbAt (i + 1) - db = (1 - t) * (120 / 8191) := by
      rw [hdbeq, hab]; ring
    nlinarith
  · -- t < 1/8192: bound through the left endpoint
    have hL := log_ten_pos
    have hLne : Real.log 10 ≠ 0 := ne_of_gt hL
    set s : ℝ := 12 * Real.log 10 / 8191 with hsdef
    have hs0 : 0 ≤ s := by rw [hsdef]; positivity
    have hs2 : s ≤ 1/2 := by
      rw [hsdef]
      nlinarith [log_ten_le_nine]
    have hfb_eq : fb = fa * Real.exp s := by
      rw [hfadef, hfbdef, dbToLinearExact_eq_exp, dbToLinearExact_eq_exp, ← Real.exp_add]
      congr 1
      rw [hab, DB_TO_LINEAR_FACTOR, hsdef]
      ring
    have hyfa : y / fa = 1 + t * (Real.exp s - 1) := by
      rw [hydef, hfb_eq]
      field_simp
      ring
    have hlog1 : Real.log (y / fa) ≤ y / fa - 1 :=
      Real.log_le_sub_one_of_pos (div_pos hy_pos hfa_pos)
    have hlog2 : Real.log (y / fa) = Real.log y - Real.log fa :=
      Real.log_div (ne_of_gt hy_pos) (ne_of_gt hfa_pos)
    have hexp2 : Real.exp s - 1 ≤ 2 * s := by
      have := exp_le_one_add_two_mul hs0 hs2
      linarith
    have hstep : linearToDbExact y - linearToDbExact fa =
        10 * (Real.log y - Real.log fa) / Real.log 10 := by
      rw [linearToDbExact_def', linearToDbExact_def']
      ring
    have hfa_rt : linearToDbExact fa = dbAt i := by
      rw [hfadef, linearToDbExact_dbToLinearExact]
    have hbound : linearToDbExact y - dbAt i ≤ 10 * (t * (2 * s)) / Real.log 10 := by
      rw [← hfa_rt, hstep, ← hlog2]
      have hub : Real.log (y / fa) ≤ t * (2 * s) := by
        have h1' : y / fa - 1 = t * (Real.exp s - 1) := by rw [hyfa]; ring
        have h2' : t * (Real.exp s - 1) ≤ t * (2 * s) :=
          mul_le_mul_of_nonneg_left hexp2 ht0
        linarith
      apply div_le_div_of_nonneg_right ?_ (le_of_lt hL) |>.trans_eq rfl
      nlinarith
    have hfinal : 10 * (t * (2 * s)) / Real.log 10 = 240 * t / 8191 := by
      rw [hsdef]
      field_simp
      ring
    rw [hfinal] at hbound
    linarith

theorem linearToDbExact_one : linearToDbExact 1 = 0 := by
  rw [linearToDbExact_def', Real.log_one]
  norm_num

/-- C4 witness instantiation helper is below; first the full C5 statement. -/
theorem C5_lut_quantization_bounds :
    (∀ db : ℝ, -120 ≤ db → db ≤ 0 →
      |fastDbToLinear db - dbToLinearExact db| ≤ DB_RANGE / 8192 ∧
      |dbToLinear db - dbToLinearExact db| ≤ DB_RANGE / 8192) ∧
    (∀ lin : ℝ, MIN_LINEAR_POWER ≤ lin → lin ≤ 1 →
      |fastLinearToDb lin - linearToDbExact lin| ≤ DB_RANGE / 8192 ∧
      |linearToDb lin - linearToDbExact lin| ≤ DB_RANGE / 8192) := by
  have hL9 := log_ten_le_nine
  have hL0 := log_ten_pos
  constructor
  · intro db hlo hhi
    rw [DB_RANGE_eq]
    by_cases hA : db ≤ DB_MIN
    · have hdb : db = -120 := le_antisymm (by rw [DB_MIN] at hA; exact hA) hlo
      have hmin : dbToLinearExact db = MIN_LINEAR_POWER := by
        rw [hdb]; rfl
      rw [fastDbToLinear, if_pos hA, dbToLinear, if_pos hA, hmin]
      norm_num
    by_cases hB : DB_MAX ≤ db
    · have hdb : db = 0 := le_antisymm hhi (by rw [DB_MAX] at hB; exact hB)
      have hmax : dbToLinearExact db = MAX_LINEAR_POWER := by
        rw [hdb, dbToLinearExact_zero, MAX_LINEAR_POWER]
      rw [fastDbToLinear, if_neg hA, if_pos hB, dbToLinear, if_neg hA, if_pos hB, hmax]
      norm_num
    have h1 : DB_MIN < db := lt_of_not_le hA
    have h2 : db < DB_MAX := lt_of_not_le hB
    have hdb0 : db ≤ 0 := hhi
    constructor
    · -- fast variant
      obtain ⟨j, hj, hclose, heq⟩ := fastDbToLinear_interior h1 h2
      rw [heq]
      have hb := dbToLinearExact_close (dbAt_le_zero hj) hdb0 hclose
      have : Real.log 10 / 10 * (60 / 8191) ≤ 9 / 10 * (60 / 8191) := by
        apply mul_le_mul_of_nonneg_right _ (by norm_num)
        linarith
      calc |dbToLinearExact (dbAt j) - dbToLinearExact db|
          ≤ Real.log 10 / 10 * (60 / 8191) := hb
        _ ≤ 9 / 10 * (60 / 8191) := this
        _ ≤ 120 / 8192 := by norm_num
    · -- interpolated variant
      obtain ⟨i, t, hi81, ht0, ht1, hdbeq, hval⟩ := dbToLinear_interior h1 h2
      have hab : dbAt (i + 1) = dbAt i + 120 / 8191 := dbAt_succ i
      have hb0 : dbAt (i + 1) ≤ 0 := dbAt_le_zero hi81
      have ha0 : dbAt i ≤ 0 := by linarith [hab]
      have hadb : dbAt i ≤ db := by rw [hdbeq]; nlinarith
      have hdbb : db ≤ dbAt (i + 1) := by rw [hdbeq, hab]; nlinarith
      have hfa_le : dbToLinearExact (dbAt i) ≤ dbToLinearExact db :=
        dbToLinearExact_le_dbToLinearExact hadb
      have hfb_ge : dbToLinearExact db ≤ dbToLinearExact (dbAt (i + 1)) :=
        dbToLinearExact_le_dbToLinearExact hdbb
      have hfab : dbToLinearExact (dbAt i) ≤ dbToLinearExact (dbAt (i + 1)) := by linarith
      have hd : |dbAt (i + 1) - dbAt i| ≤ 120 / 8191 := by
        rw [hab]
        have he : dbAt i + 120 / 8191 - dbAt i = 120 / 8191 := by ring
        rw [he, abs_of_nonneg (by norm_num : (0:ℝ) ≤ (120:ℝ) / 8191)]
      have hgap := dbToLinearExact_close hb0 ha0 hd
      rw [hval, dbToLinearLUT_eq_exact, dbToLinearLUT_eq_exact]
      have hy_lo : dbToLinearExact (dbAt i) ≤
          dbToLinearExact (dbAt i) + t * (dbToLinearExact (dbAt (i+1)) - dbToLinearExact (dbAt i)) := by
        nlinarith
      have hy_hi : dbToLinearExact (dbAt i) + t * (dbToLinearExact (dbAt (i+1)) - dbToLinearExact (dbAt i))
          ≤ dbToLinearExact (dbAt (i + 1)) := by nlinarith
      have hgap' : dbToLinearExact (dbAt (i+1)) - dbToLinearExact (dbAt i) ≤
          Real.log 10 / 10 * (120 / 8191) := by
        have := abs_le.1 hgap
        linarith [this.2]
      have hbound : |dbToLinearExact (dbAt i) + t * (dbToLinearExact (dbAt (i+1)) - dbToLinearExact (dbAt i))
          - dbToLinearExact db| ≤ dbToLinearExact (dbAt (i+1)) - dbToLinearExact (dbAt i) := by
        rw [abs_le]
        constructor <;> nlinarith
      calc |dbToLinearExact (dbAt i) + t * (dbToLinearExact (dbAt (i+1)) - dbToLinearExact (dbAt i))
          - dbToLinearExact db|
          ≤ dbToLinearExact (dbAt (i+1)) - dbToLinearExact (dbAt i) := hbound
        _ ≤ Real.log 10 / 10 * (120 / 8191) := hgap'
        _ ≤ 9 / 10 * (120 / 8191) := by
            apply mul_le_mul_of_nonneg_right _ (by norm_num)
            linarith
        _ ≤ 120 / 8192 := by norm_num
  · intro lin hlo hhi
    rw [DB_RANGE_eq]
    by_cases hA : lin ≤ MIN_LINEAR_POWER
    · have hlin : lin = MIN_LINEAR_POWER := le_antisymm hA hlo
      have hexact : linearToDbExact lin = DB_MIN := by
        rw [hlin]
        exact linearToDbExact_dbToLinearExact DB_MIN
      rw [fastLinearToDb, if_pos hA, linearToDb, if_pos hA, hexact]
      norm_num
    by_cases hB : MAX_LINEAR_POWER ≤ lin
    · have hlin : lin = 1 := le_antisymm hhi (by rw [MAX_LINEAR_POWER] at hB; exact hB)
      have hexact : linearToDbExact lin = DB_MAX := by
        rw [hlin, linearToDbExact_one, DB_MAX]
      rw [fastLinearToDb, if_neg hA, if_pos hB, linearToDb, if_neg hA, if_pos hB, hexact]
      norm_num
    have h1 : MIN_LINEAR_POWER < lin := lt_of_not_le hA
    have h2 : lin < MAX_LINEAR_POWER := lt_of_not_le hB
    constructor
    · have := fastLinearToDb_interior h1 h2
      calc |fastLinearToDb lin - linearToDbExact lin| ≤ 60 / 8191 := this
        _ ≤ 120 / 8192 := by norm_num
    · rw [linearToDb_interior h1 h2]
      norm_num

/-- C4 witness: the claim theorem instantiated at `db = -120`. -/
theorem C4_roundtrip_witness :
    (-120 : ℝ) ≤ -120 ∧ (-120 : ℝ) ≤ 0 ∧
    |linearToDb (dbToLinear (-120)) - (-120)| ≤ DB_RANGE / 8192 :=
  ⟨le_refl _, by norm_num, C4_roundtrip_within_step (-120) (le_refl _) (by norm_num)⟩

/-- C5 witness: the claim theorem instantiated at `db = -60` and
`lin = MIN_LINEAR_POWER`. -/
theorem C5_lut_quantization_witness :
    |fastDbToLinear (-60) - dbToLinearExact (-60)| ≤ DB_RANGE / 8192 ∧
    |fastLinearToDb MIN_LINEAR_POWER - linearToDbExact MIN_LINEAR_POWER| ≤ DB_RANGE / 8192 :=
  ⟨(C5_lut_quantization_bounds.1 (-60) (by norm_num) (by norm_num)).1,
   (C5_lut_quantization_bounds.2 MIN_LINEAR_POWER (le_refl _)
      (le_of_lt MIN_LINEAR_POWER_lt_one)).1⟩

/-! JS-number model with NaN, used for the out-of-domain/NaN claims.
The operations follow ECMAScript: arithmetic on NaN yields NaN, comparisons
involving NaN are false, `NaN | 0 = 0`.  `Math.log` yields NaN for negative
arguments and -Infinity at 0; both are collapsed to `nan` here (the 0 case is
unreachable behind the domain guards of the functions modelled). -/

inductive JsNum where
  | nan : JsNum
  | num : ℝ → JsNum

namespace JsNum

def jle : JsNum → JsNum → Bool
  | nan, _ => false
  | _, nan => false
  | num a, num b => decide (a ≤ b)

def add : JsNum → JsNum → JsNum
  | nan, _ => nan
  | _, nan => nan
  | num a, num b => num (a + b)

def sub : JsNum → JsNum → JsNum
  | nan, _ => nan
  | _, nan => nan
  | num a, num b => num (a - b)

def mul : JsNum → JsNum → JsNum
  | nan, _ => nan
  | _, nan => nan
  | num a, num b => num (a * b)

def div : JsNum → JsNum → JsNum
  | nan, _ => nan
  | _, nan => nan
  | num a, num b => num (a / b)

/-- JS `x | 0`. -/
def or0 : JsNum → ℤ
  | nan => 0
  | num a => jsTrunc a

/-- JS `Math.log`. -/
def jlog : JsNum → JsNum
  | nan => nan
  | num a => if a ≤ 0 then nan else num (Real.log a)

end JsNum

/-- `dbToLinear` over JS numbers (NaN included). -/
def dbToLinearJs (db : JsNum) : JsNum :=
  if db.jle (JsNum.num DB_MIN) then JsNum.num MIN_LINEAR_POWER
  else if (JsNum.num DB_MAX).jle db then JsNum.num MAX_LINEAR_POWER
  else
    let indexF := (db.sub (JsNum.num DB_MIN)).mul (JsNum.num LUT_SCALE)
    let indexLow := indexF.or0
    let indexHigh := indexLow + 1
    let frac := indexF.sub (JsNum.num (indexLow : ℝ))
    if (LUT_SIZE : ℤ) ≤ indexHigh then JsNum.num (dbToLinearLUT LUT_SIZE_MINUS_1)
    else
      (JsNum.num (dbToLinearLUT indexLow.toNat)).add
        (frac.mul (JsNum.num (dbToLinearLUT indexHigh.toNat - dbToLinearLUT indexLow.toNat)))

/-- `fastDbToLinear` over JS numbers. -/
def fastDbToLinearJs (db : JsNum) : JsNum :=
  if db.jle (JsNum.num DB_MIN) then JsNum.num MIN_LINEAR_POWER
  else if (JsNum.num DB_MAX).jle db then JsNum.num MAX_LINEAR_POWER
  else
    JsNum.num (dbToLinearLUT
      (((db.sub (JsNum.num DB_MIN)).mul (JsNum.num LUT_SCALE)).add (JsNum.num 0.5)).or0.toNat)

/-- `linearToDb` over JS numbers. -/
def linearToDbJs (linear : JsNum) : JsNum :=
  if linear.jle (JsNum.num MIN_LINEAR_POWER) then JsNum.num DB_MIN
  else if (JsNum.num MAX_LINEAR_POWER).jle linear then JsNum.num DB_MAX
  else
    let logValue := linear.jlog
    let normalized := (logValue.sub (JsNum.num LOG_MIN_LINEAR)).div (JsNum.num LOG_LINEAR_RANGE)
    let indexF := normalized.mul (JsNum.num (LUT_SIZE_MINUS_1 : ℝ))
    let indexLow := indexF.or0
    let indexHigh := indexLow + 1
    let frac := indexF.sub (JsNum.num (indexLow : ℝ))
    if (LUT_SIZE : ℤ) ≤ indexHigh then JsNum.num (linearToDbLUT LUT_SIZE_MINUS_1)
    else
      (JsNum.num (linearToDbLUT indexLow.toNat)).add
        (frac.mul (JsNum.num (linearToDbLUT indexHigh.toNat - linearToDbLUT indexLow.toNat)))

/-- `fastLinearToDb` over JS numbers. -/
def fastLinearToDbJs (linear : JsNum) : JsNum :=
  if linear.jle (JsNum.num MIN_LINEAR_POWER) then JsNum.num DB_MIN
  else if (JsNum.num MAX_LINEAR_POWER).jle linear then JsNum.num DB_MAX
  else
    let index :=
      ((((linear.jlog.sub (JsNum.num LOG_MIN_LINEAR)).div (JsNum.num LOG_LINEAR_RANGE)).mul
        (JsNum.num (LUT_SIZE_MINUS_1 : ℝ))).add (JsNum.num 0.5)).or0
    JsNum.num (linearToDbLUT (if index < (LUT_SIZE : ℤ) then index.toNat else LUT_SIZE_MINUS_1))

theorem jle_num_num (a b : ℝ) : (JsNum.num a).jle (JsNum.num b) = decide (a ≤ b) := rfl

theorem dbToLinearLUT_zero : dbToLinearLUT 0 = MIN_LINEAR_POWER := by
  rw [dbToLinearLUT, MIN_LINEAR_POWER]
  congr 1
  norm_num

theorem linearToDbLUT_zero : linearToDbLUT 0 = DB_MIN := by
  rw [linearToDbLUT_eq 0, dbAt_zero, DB_MIN]

/-- C6 (counterexample): fed NaN, the interpolated `dbToLinear`/`linearToDb`
return NaN — not the domain boundary value the claim requires. -/
theorem C6_nan_counterexample :
    dbToLinearJs JsNum.nan = JsNum.nan ∧ linearToDbJs JsNum.nan = JsNum.nan ∧
    JsNum.nan ≠ JsNum.num MIN_LINEAR_POWER ∧ JsNum.nan ≠ JsNum.num MAX_LINEAR_POWER ∧
    JsNum.nan ≠ JsNum.num DB_MIN ∧ JsNum.nan ≠ JsNum.num DB_MAX := by
  refine ⟨rfl, rfl, ?_, ?_, ?_, ?_⟩ <;> intro h <;> exact JsNum.noConfusion h

/-- C6 (amended): real inputs outside the conversion domain are clamped to the
domain boundary value by all four functions; a NaN input is mapped to the
lower-boundary table entry by the fast variants but is propagated as NaN by
the interpolated variants. -/
theorem C6_domain_clamping_amended :
    (∀ x : ℝ, x < -120 →
      dbToLinearJs (JsNum.num x) = JsNum.num MIN_LINEAR_POWER ∧
      fastDbToLinearJs (JsNum.num x) = JsNum.num MIN_LINEAR_POWER) ∧
    (∀ x : ℝ, 0 < x →
      dbToLinearJs (JsNum.num x) = JsNum.num MAX_LINEAR_POWER ∧
      fastDbToLinearJs (JsNum.num x) = JsNum.num MAX_LINEAR_POWER) ∧
    (∀ x : ℝ, x < MIN_LINEAR_POWER →
      linearToDbJs (JsNum.num x) = JsNum.num DB_MIN ∧
      fastLinearToDbJs (JsNum.num x) = JsNum.num DB_MIN) ∧
    (∀ x : ℝ, 1 < x →
      linearToDbJs (JsNum.num x) = JsNum.num DB_MAX ∧
      fastLinearToDbJs (JsNum.num x) = JsNum.num DB_MAX) ∧
    (fastDbToLinearJs JsNum.nan = JsNum.num (dbToLinearLUT 0) ∧
      dbToLinearLUT 0 = MIN_LINEAR_POWER) ∧
    (fastLinearToDbJs JsNum.nan = JsNum.num (linearToDbLUT 0) ∧
      linearToDbLUT 0 = DB_MIN) := by
  refine ⟨?_, ?_, ?_, ?_, ⟨rfl, dbToLinearLUT_zero⟩, ⟨rfl, linearToDbLUT_zero⟩⟩
  · intro x hx
    have hcond : (JsNum.num x).jle (JsNum.num DB_MIN) = true := by
      rw [jle_num_num, decide_eq_true_eq, DB_MIN]
      linarith
    constructor
    · rw [dbToLinearJs, if_pos hcond]
    · rw [fastDbToLinearJs, if_pos hcond]
  · intro x hx
    have hcond : (JsNum.num x).jle (JsNum.num DB_MIN) = false := by
      rw [jle_num_num, decide_eq_false_iff_not, DB_MIN]
      linarith
    have hcond2 : (JsNum.num DB_MAX).jle (JsNum.num x) = true := by
      rw [jle_num_num, decide_eq_true_eq, DB_MAX]
      linarith
    constructor
    · rw [dbToLinearJs, if_neg (by rw [hcond]; exact Bool.false_ne_true), if_pos hcond2]
    · rw [fastDbToLinearJs, if_neg (by rw [hcond]; exact Bool.false_ne_true), if_pos hcond2]
  · intro x hx
    have hcond : (JsNum.num x).jle (JsNum.num MIN_LINEAR_POWER) = true := by
      rw [jle_num_num, decide_eq_true_eq]
      linarith
    constructor
    · rw [linearToDbJs, if_pos hcond]
    · rw [fastLinearToDbJs, if_pos hcond]
  · intro x hx
    have hcond : (JsNum.num x).jle (JsNum.num MIN_LINEAR_POWER) = false := by
      rw [jle_num_num, decide_eq_false_iff_not]
      linarith [MIN_LINEAR_POWER_lt_one]
    have hcond2 : (JsNum.num MAX_LINEAR_POWER).jle (JsNum.num x) = true := by
      rw [jle_num_num, decide_eq_true_eq, MAX_LINEAR_POWER]
      linarith
    constructor
    · rw [linearToDbJs, if_neg (by rw [hcond]; exact Bool.false_ne_true), if_pos hcond2]
    · rw [fastLinearToDbJs, if_neg (by rw [hcond]; exact Bool.false_ne_true), if_pos hcond2]

/-- C6 witness: the amended theorem instantiated at concrete out-of-domain
inputs `-121`, `1`, `0` and `2`. -/
theorem C6_domain_clamping_witness :
    dbToLinearJs (JsNum.num (-121)) = JsNum.num MIN_LINEAR_POWER ∧
    dbToLinearJs (JsNum.num 1) = JsNum.num MAX_LINEAR_POWER ∧
    linearToDbJs (JsNum.num 0) = JsNum.num DB_MIN ∧
    fastLinearToDbJs (JsNum.num 2) = JsNum.num DB_MAX :=
  ⟨(C6_domain_clamping_amended.1 (-121) (by norm_num)).1,
   (C6_domain_clamping_amended.2.1 1 (by norm_num)).1,
   (C6_domain_clamping_amended.2.2.1 0 MIN_LINEAR_POWER_pos).1,
   (C6_domain_clamping_amended.2.2.2.1 2 (by norm_num)).2⟩

/-! Band model: `calculateBands` from `rtaProcessor.ts`.  All fields are JS
numbers, so every field is a real here (`binStart`/`binEnd` hold the values of
`Math.max(0, Math.floor ...)` / `Math.min(halfFft, Math.ceil ...)`). -/

structure RtaBandDef where
  freqStart : ℝ
  freqEnd : ℝ
  freqCenter : ℝ
  binStart : ℝ
  binEnd : ℝ

/-- Body of the `calculateBands` loop for band `i`. -/
def bandDefAt (numBands : ℕ) (sampleRate fftSize : ℝ) (i : ℕ) : RtaBandDef :=
  let minFreq : ℝ := 20
  let maxFreq : ℝ := min 20000 (sampleRate / 2)
  let logMin := Real.logb 10 minFreq
  let logMax := Real.logb 10 maxFreq
  let logStep := (logMax - logMin) / (numBands : ℝ)
  let binWidth := sampleRate / fftSize
  let halfFft := fftSize / 2 - 1
  let freqStart := (10 : ℝ) ^ (logMin + (i : ℝ) * logStep)
  let freqEnd := (10 : ℝ) ^ (logMin + ((i : ℝ) + 1) * logStep)
  { freqStart := freqStart
    freqEnd := freqEnd
    freqCenter := Real.sqrt (freqStart * freqEnd)
    binStart := max 0 (⌊freqStart / binWidth⌋ : ℝ)
    binEnd := min halfFft (⌈freqEnd / binWidth⌉ : ℝ) }

/-- `calculateBands(numBands, sampleRate, fftSize)` from `rtaProcessor.ts`. -/
def calculateBands (numBands : ℕ) (sampleRate fftSize : ℝ) : List RtaBandDef :=
  (List.range numBands).map (bandDefAt numBands sampleRate fftSize)

theorem calculateBands_getElem {numBands i : ℕ} (sampleRate fftSize : ℝ) (h : i < numBands) :
    (calculateBands numBands sampleRate fftSize)[i]? =
      some (bandDefAt numBands sampleRate fftSize i) := by
  simp [calculateBands, List.getElem?_map, List.getElem?_range, h]

theorem calculateBands_length (numBands : ℕ) (sampleRate fftSize : ℝ) :
    (calculateBands numBands sampleRate fftSize).length = numBands := by
  simp [calculateBands]

/-- Per-band invariants of `bandDefAt` under the supported parameter ranges. -/
theorem bandDefAt_invariants (numBands fftSize : ℕ) (sampleRate : ℝ) (i : ℕ)
    (hn : 0 < numBands) (hi : i < numBands)
    (hff : 512 ≤ fftSize) (hev : fftSize % 2 = 0)
    (hsr : 20 < sampleRate / 2) :
    0 ≤ (bandDefAt numBands sampleRate (fftSize : ℝ) i).binStart ∧
    (bandDefAt numBands sampleRate (fftSize : ℝ) i).binStart ≤
      (bandDefAt numBands sampleRate (fftSize : ℝ) i).binEnd ∧
    (bandDefAt numBands sampleRate (fftSize : ℝ) i).binEnd ≤ (fftSize : ℝ) / 2 - 1 ∧
    (bandDefAt numBands sampleRate (fftSize : ℝ) i).freqStart <
      (bandDefAt numBands sampleRate (fftSize : ℝ) i).freqEnd := by
  have hsr0 : (0:ℝ) < sampleRate := by linarith
  have hffR : (512:ℝ) ≤ (fftSize : ℝ) := by exact_mod_cast hff
  have hffpos : (0:ℝ) < (fftSize : ℝ) := by linarith
  set logMin := Real.logb 10 20 with hlogMin
  set maxFreq := min (20000:ℝ) (sampleRate / 2) with hmaxFreq
  set logMax := Real.logb 10 maxFreq with hlogMax
  set step := (logMax - logMin) / (numBands : ℝ) with hstepdef
  have hmax20 : (20:ℝ) < maxFreq := lt_min (by norm_num) hsr
  have hmaxpos : (0:ℝ) < maxFreq := by linarith
  have hlt : logMin < logMax :=
    Real.logb_lt_logb (by norm_num) (by norm_num) hmax20
  have hnR : (0:ℝ) < (numBands : ℝ) := by exact_mod_cast hn
  have hstep : 0 < step := div_pos (by linarith) hnR
  set bw := sampleRate / (fftSize : ℝ) with hbwdef
  have hbwpos : 0 < bw := div_pos hsr0 hffpos
  set fs := (10:ℝ) ^ (logMin + (i : ℝ) * step) with hfsdef
  set fe := (10:ℝ) ^ (logMin + ((i : ℝ) + 1) * step) with hfedef
  have hbs : (bandDefAt numBands sampleRate (fftSize : ℝ) i).binStart =
      max 0 (⌊fs / bw⌋ : ℝ) := rfl
  have hbe : (bandDefAt numBands sampleRate (fftSize : ℝ) i).binEnd =
      min ((fftSize : ℝ) / 2 - 1) (⌈fe / bw⌉ : ℝ) := rfl
  have hfs' : (bandDefAt numBands sampleRate (fftSize : ℝ) i).freqStart = fs := rfl
  have hfe' : (bandDefAt numBands sampleRate (fftSize : ℝ) i).freqEnd = fe := rfl
  have hfspos : 0 < fs := Real.rpow_pos_of_pos (by norm_num) _
  have hfepos : 0 < fe := Real.rpow_pos_of_pos (by norm_num) _
  have hfslt : fs < fe := by
    rw [hfsdef, hfedef]
    apply Real.rpow_lt_rpow_left_iff (by norm_num : (1:ℝ) < 10) |>.2
    nlinarith
  -- fs stays strictly below maxFreq ≤ sampleRate/2
  have hfsmax : fs < maxFreq := by
    have hexp : logMin + (i : ℝ) * step < logMax := by
      have hiR : (i : ℝ) ≤ (numBands : ℝ) - 1 := by
        have : (i : ℝ) + 1 ≤ (numBands : ℝ) := by exact_mod_cast hi
        linarith
      have hns : (numBands : ℝ) * step = logMax - logMin := by
        rw [hstepdef]
        field_simp
      nlinarith
    calc fs < (10:ℝ) ^ logMax := by
          rw [hfsdef]
          exact Real.rpow_lt_rpow_left_iff (by norm_num : (1:ℝ) < 10) |>.2 hexp
      _ = maxFreq := Real.rpow_logb (by norm_num) (by norm_num) hmaxpos
  have hfssr : fs < sampleRate / 2 := lt_of_lt_of_le hfsmax (min_le_right _ _)
  -- integer half-size
  obtain ⟨k, hk⟩ : ∃ k : ℕ, fftSize = 2 * k := ⟨fftSize / 2, by omega⟩
  have hkR : ((fftSize : ℝ)) / 2 = (k : ℝ) := by
    rw [hk]
    push_cast
    ring
  have hfloor_le : (⌊fs / bw⌋ : ℝ) ≤ (fftSize : ℝ) / 2 - 1 := by
    have hdiv : fs / bw < (k : ℝ) := by
      rw [div_lt_iff hbwpos, hbwdef]
      calc fs < sampleRate / 2 := hfssr
        _ = (k : ℝ) * (sampleRate / (fftSize : ℝ)) := by
            rw [← hkR]
            field_simp
            ring
    have hz : ⌊fs / bw⌋ < (k : ℤ) := Int.floor_lt.2 (by exact_mod_cast hdiv)
    have hz' : ⌊fs / bw⌋ ≤ (k : ℤ) - 1 := by omega
    have : (⌊fs / bw⌋ : ℝ) ≤ (k : ℝ) - 1 := by exact_mod_cast hz'
    rw [hkR]
    exact this
  have hfloor_ceil : (⌊fs / bw⌋ : ℝ) ≤ (⌈fe / bw⌉ : ℝ) := by
    have h1 : (⌊fs / bw⌋ : ℝ) ≤ fs / bw := Int.floor_le _
    have h2 : fs / bw ≤ fe / bw := (div_le_div_right hbwpos).2 (le_of_lt hfslt)
    have h3 : fe / bw ≤ (⌈fe / bw⌉ : ℝ) := Int.le_ceil _
    linarith
  have hhalf_nonneg : (0:ℝ) ≤ (fftSize : ℝ) / 2 - 1 := by linarith
  have hceil_nonneg : (0:ℝ) ≤ (⌈fe / bw⌉ : ℝ) := by
    have h0 : (0:ℝ) ≤ fe / bw := le_of_lt (div_pos hfepos hbwpos)
    have hc := Int.ceil_nonneg h0
    exact_mod_cast hc
  refine ⟨?_, ?_, ?_, ?_⟩
  · rw [hbs]; exact le_max_left _ _
  · rw [hbs, hbe]
    apply max_le
    · exact le_min hhalf_nonneg hceil_nonneg
    · exact le_min hfloor_le hfloor_ceil
  · rw [hbe]; exact min_le_left _ _
  · rw [hfs', hfe']; exact hfslt

theorem bandDefAt_freqStart_zero (numBands : ℕ) (sampleRate fftSize : ℝ) :
    (bandDefAt numBands sampleRate fftSize 0).freqStart = 20 := by
  have h : (bandDefAt numBands sampleRate fftSize 0).freqStart =
      (10:ℝ) ^ (Real.logb 10 20 + ((0:ℕ) : ℝ) *
        ((Real.logb 10 (min 20000 (sampleRate / 2)) - Real.logb 10 20) / (numBands : ℝ))) := rfl
  rw [h]
  norm_num

theorem bandDefAt_freqEnd_succ (numBands : ℕ) (sampleRate fftSize : ℝ) (i : ℕ) :
    (bandDefAt numBands sampleRate fftSize i).freqEnd =
      (bandDefAt numBands sampleRate fftSize (i + 1)).freqStart := by
  show (10:ℝ) ^ (Real.logb 10 20 + ((i : ℝ) + 1) * _) =
    (10:ℝ) ^ (Real.logb 10 20 + ((i + 1 : ℕ) : ℝ) * _)
  congr 1
  push_cast
  ring

theorem bandDefAt_last_freqEnd (numBands : ℕ) (sampleRate fftSize : ℝ)
    (hn : 0 < numBands) (hsr : 20 < sampleRate / 2) :
    (bandDefAt numBands sampleRate fftSize (numBands - 1)).freqEnd =
      min 20000 (sampleRate / 2) := by
  have hmaxpos : (0:ℝ) < min 20000 (sampleRate / 2) := lt_min (by norm_num) (by linarith)
  have hnR : (0:ℝ) < (numBands : ℝ) := by exact_mod_cast hn
  have h : (bandDefAt numBands sampleRate fftSize (numBands - 1)).freqEnd =
      (10:ℝ) ^ (Real.logb 10 20 + (((numBands - 1 : ℕ) : ℝ) + 1) *
        ((Real.logb 10 (min 20000 (sampleRate / 2)) - Real.logb 10 20) / (numBands : ℝ))) := rfl
  rw [h]
  have hcast : ((numBands - 1 : ℕ) : ℝ) = (numBands : ℝ) - 1 := by
    have h1 : 1 ≤ numBands := hn
    push_cast [Nat.cast_sub h1]
    ring
  have hexp : Real.logb 10 20 + (((numBands - 1 : ℕ) : ℝ) + 1) *
      ((Real.logb 10 (min 20000 (sampleRate / 2)) - Real.logb 10 20) / (numBands : ℝ)) =
      Real.logb 10 (min 20000 (sampleRate / 2)) := by
    rw [hcast]
    field_simp
  rw [hexp]
  exact Real.rpow_logb (by norm_num) (by norm_num) hmaxpos

/-- C3 (claim): for bandCount in [16, 14844], fftSize in the supported set and
sampleRate/2 > 20, every band of `calculateBands` satisfies
`0 ≤ binStart ≤ binEnd ≤ fftSize/2 - 1` and `freqStart < freqEnd`, and the
bands tile `[20, min(20000, sampleRate/2)]` contiguously: band 0 starts at
20 Hz, each band ends where the next starts, and the last band ends at
`min(20000, sampleRate/2)`. -/
theorem C3_calculateBands_invariants (numBands fftSize : ℕ) (sampleRate : ℝ)
    (hn1 : 16 ≤ numBands) (_hn2 : numBands ≤ 14844)
    (hfft : fftSize = 512 ∨ fftSize = 1024 ∨ fftSize = 2048 ∨ fftSize = 4096 ∨
      fftSize = 8192 ∨ fftSize = 16384 ∨ fftSize = 32768)
    (hsr : 20 < sampleRate / 2) :
    (calculateBands numBands sampleRate (fftSize : ℝ)).length = numBands ∧
    (∀ b ∈ calculateBands numBands sampleRate (fftSize : ℝ),
      0 ≤ b.binStart ∧ b.binStart ≤ b.binEnd ∧ b.binEnd ≤ (fftSize : ℝ) / 2 - 1 ∧
      b.freqStart < b.freqEnd) ∧
    (∀ b, (calculateBands numBands sampleRate (fftSize : ℝ))[0]? = some b →
      b.freqStart = 20) ∧
    (∀ i b b', (calculateBands numBands sampleRate (fftSize : ℝ))[i]? = some b →
      (calculateBands numBands sampleRate (fftSize : ℝ))[i + 1]? = some b' →
      b.freqEnd = b'.freqStart) ∧
    (∀ b, (calculateBands numBands sampleRate (fftSize : ℝ))[numBands - 1]? = some b →
      b.freqEnd = min 20000 (sampleRate / 2)) := by
  have hn : 0 < numBands := by omega
  have hffprops : 512 ≤ fftSize ∧ fftSize % 2 = 0 := by
    rcases hfft with rfl | rfl | rfl | rfl | rfl | rfl | rfl <;> norm_num
  have hmem : ∀ {i : ℕ}, i < numBands →
      (calculateBands numBands sampleRate (fftSize : ℝ))[i]? =
        some (bandDefAt numBands sampleRate (fftSize : ℝ) i) :=
    fun {i} hi => calculateBands_getElem _ _ hi
  have hlen := calculateBands_length numBands sampleRate (fftSize : ℝ)
  refine ⟨hlen, ?_, ?_, ?_, ?_⟩
  · intro b hb
    simp only [calculateBands, List.mem_map, List.mem_range] at hb
    obtain ⟨i, hi, rfl⟩ := hb
    exact bandDefAt_invariants numBands fftSize sampleRate i hn hi
      hffprops.1 hffprops.2 hsr
  · intro b hb
    rw [hmem hn] at hb
    cases hb
    exact bandDefAt_freqStart_zero numBands sampleRate (fftSize : ℝ)
  · intro i b b' hb hb'
    have hi1 : i + 1 < numBands := by
      by_contra hcon
      rw [List.getElem?_eq_none (by rw [hlen]; omega)] at hb'
      exact Option.noConfusion hb'
    have hi : i < numBands := by omega
    rw [hmem hi] at hb
    rw [hmem hi1] at hb'
    cases hb
    cases hb'
    exact bandDefAt_freqEnd_succ numBands sampleRate (fftSize : ℝ) i
  · intro b hb
    rw [hmem (by omega : numBands - 1 < numBands)] at hb
    cases hb
    exact bandDefAt_last_freqEnd numBands sampleRate (fftSize : ℝ) hn hsr

/-- C3 witness: the invariants instantiated at
`(numBands, sampleRate, fftSize) = (16, 44100, 2048)`. -/
theorem C3_calculateBands_witness :
    (calculateBands 16 44100 ((2048 : ℕ) : ℝ)).length = 16 ∧
    (∀ b ∈ calculateBands 16 44100 ((2048 : ℕ) : ℝ),
      0 ≤ b.binStart ∧ b.binStart ≤ b.binEnd ∧ b.binEnd ≤ ((2048 : ℕ) : ℝ) / 2 - 1 ∧
      b.freqStart < b.freqEnd) ∧
    (∀ b, (calculateBands 16 44100 ((2048 : ℕ) : ℝ))[0]? = some b → b.freqStart = 20) := by
  have h := C3_calculateBands_invariants 16 2048 44100 (by norm_num) (by norm_num)
    (by norm_num) (by norm_num)
  exact ⟨h.1, h.2.1, h.2.2.1⟩

/-! Frame processor: `prepareBands`-shaped data, `ProcessingState` and
`process` from `rtaProcessor.ts`.  Typed arrays are modelled as index
functions; the `Uint16Array` store of the hold counter is reduction mod 2^16.
The source's 8-way unrolled bin loop plus remainder loop adds the per-bin
converted values of bins `binStart..binEnd` left to right; in real arithmetic
that is the plain sum modelled by `sumBins`.  Band updates are independent
across `i` (band `i` reads only index `i` of the state arrays), so the
sequential loop is modelled pointwise. -/

structure PreparedBands where
  binStarts : ℕ → ℕ
  binEnds : ℕ → ℕ
  bandCount : ℕ

structure ProcessingParams where
  minDb : ℝ
  extraSmoothing : ℝ
  peakHold : Bool
  peakDecay : ℝ
  peakHoldFrames : ℕ

structure ProcessingState where
  smoothedLinear : ℕ → ℝ
  peaksLinear : ℕ → ℝ
  peakHoldCounters : ℕ → ℕ
  smoothedDb : ℕ → ℝ
  peaksDb : ℕ → ℝ
  minLinear : ℝ

/-- Per-bin dB→linear conversion of the hot loop
(`d <= dbMin ? minLin : d >= 0 ? maxLin : lut[((d - dbMin)*lutScale + 0.5)|0]`). -/
def binToLinear (d : ℝ) : ℝ :=
  if d ≤ DB_MIN then MIN_LINEAR_POWER
  else if 0 ≤ d then MAX_LINEAR_POWER
  else dbToLinearLUT (jsTrunc ((d - DB_MIN) * LUT_SCALE + 0.5)).toNat

/-- Sum of the converted bins `binStart..binEnd` (inclusive). -/
def sumBins (frequencyData : ℕ → ℝ) (binStart binEnd : ℕ) : ℝ :=
  ∑ bin ∈ Finset.Icc binStart binEnd, binToLinear (frequencyData bin)

/-- `sum * invCount` with `invCount = 1/(binEnd - binStart + 1)`. -/
def bandAvg (frequencyData : ℕ → ℝ) (prepared : PreparedBands) (i : ℕ) : ℝ :=
  sumBins frequencyData (prepared.binStarts i) (prepared.binEnds i) *
    (1 / (((prepared.binEnds i : ℝ) - (prepared.binStarts i : ℝ)) + 1))

/-- The `smoothed` EMA value computed for band `i` (before the final clamp):
`smoothedLin[i]*invAlpha + (avg > minLinear ? avg : minLinear)*alpha`. -/
def bandSmoothed (frequencyData : ℕ → ℝ) (prepared : PreparedBands)
    (state : ProcessingState) (params : ProcessingParams) (i : ℕ) : ℝ :=
  state.smoothedLinear i * params.extraSmoothing +
    (if state.minLinear < bandAvg frequencyData prepared i
      then bandAvg frequencyData prepared i else state.minLinear) *
      (1 - params.extraSmoothing)

/-- `process(frequencyData, prepared, state, params)` from `rtaProcessor.ts`,
returning the mutated state. -/
def process (frequencyData : ℕ → ℝ) (prepared : PreparedBands)
    (state : ProcessingState) (params : ProcessingParams) : ProcessingState :=
  if prepared.bandCount = 0 then state
  else
    { smoothedLinear := fun i =>
        if i < prepared.bandCount then
          if state.minLinear < bandSmoothed frequencyData prepared state params i
            then bandSmoothed frequencyData prepared state params i
            else state.minLinear
        else state.smoothedLinear i
      peaksLinear := fun i =>
        if i < prepared.bandCount ∧ params.peakHold then
          if state.peaksLinear i < bandSmoothed frequencyData prepared state params i
            then bandSmoothed frequencyData prepared state params i
          else if 0 < state.peakHoldCounters i then state.peaksLinear i
          else
            if state.minLinear < state.peaksLinear i * params.peakDecay
              then state.peaksLinear i * params.peakDecay else state.minLinear
        else state.peaksLinear i
      peakHoldCounters := fun i =>
        if i < prepared.bandCount ∧ params.peakHold then
          if state.peaksLinear i < bandSmoothed frequencyData prepared state params i
            then params.peakHoldFrames % 65536
          else if 0 < state.peakHoldCounters i then state.peakHoldCounters i - 1
          else state.peakHoldCounters i
        else state.peakHoldCounters i
      smoothedDb := state.smoothedDb
      peaksDb := state.peaksDb
      minLinear := state.minLinear }

/-- State after `k` further `process` calls with the constant frame `f`. -/
def processIter (f : ℕ → ℝ) (p : PreparedBands) (pr : ProcessingParams)
    (st : ProcessingState) : ℕ → ProcessingState
  | 0 => st
  | k + 1 => process f p (processIter f p pr st k) pr

/-! Accessor lemmas for `process`. -/

theorem process_minLinear (f : ℕ → ℝ) (p : PreparedBands) (st : ProcessingState)
    (pr : ProcessingParams) : (process f p st pr).minLinear = st.minLinear := by
  rw [process]
  split_ifs <;> rfl

theorem process_smoothedDb (f : ℕ → ℝ) (p : PreparedBands) (st : ProcessingState)
    (pr : ProcessingParams) : (process f p st pr).smoothedDb = st.smoothedDb := by
  rw [process]
  split_ifs <;> rfl

theorem process_peaksDb (f : ℕ → ℝ) (p : PreparedBands) (st : ProcessingState)
    (pr : ProcessingParams) : (process f p st pr).peaksDb = st.peaksDb := by
  rw [process]
  split_ifs <;> rfl

theorem process_smoothedLinear_in (f : ℕ → ℝ) (p : PreparedBands) (st : ProcessingState)
    (pr : ProcessingParams) {i : ℕ} (hi : i < p.bandCount) :
    (process f p st pr).smoothedLinear i =
      if st.minLinear < bandSmoothed f p st pr i
        then bandSmoothed f p st pr i else st.minLinear := by
  rw [process, if_neg (by omega : ¬ p.bandCount = 0)]
  exact if_pos hi

theorem process_smoothedLinear_out (f : ℕ → ℝ) (p : PreparedBands) (st : ProcessingState)
    (pr : ProcessingParams) {i : ℕ} (hi : p.bandCount ≤ i) :
    (process f p st pr).smoothedLinear i = st.smoothedLinear i := by
  rw [process]
  split_ifs with h
  · rfl
  · exact if_neg (by omega)

theorem process_peaksLinear_out (f : ℕ → ℝ) (p : PreparedBands) (st : ProcessingState)
    (pr : ProcessingParams) {i : ℕ} (hi : p.bandCount ≤ i) :
    (process f p st pr).peaksLinear i = st.peaksLinear i := by
  rw [process]
  split_ifs with h
  · rfl
  · exact if_neg (by rintro ⟨h1, -⟩; omega)

theorem process_peakHoldCounters_out (f : ℕ → ℝ) (p : PreparedBands) (st : ProcessingState)
    (pr : ProcessingParams) {i : ℕ} (hi : p.bandCount ≤ i) :
    (process f p st pr).peakHoldCounters i = st.peakHoldCounters i := by
  rw [process]
  split_ifs with h
  · rfl
  · exact if_neg (by rintro ⟨h1, -⟩; omega)

theorem process_peaksLinear_nohold (f : ℕ → ℝ) (p : PreparedBands) (st : ProcessingState)
    (pr : ProcessingParams) {i : ℕ} (hph : pr.peakHold = false) :
    (process f p st pr).peaksLinear i = st.peaksLinear i := by
  rw [process]
  split_ifs with h
  · rfl
  · exact if_neg (by rintro ⟨-, h2⟩; rw [hph] at h2; exact Bool.false_ne_true h2)

theorem process_peaks_newpeak (f : ℕ → ℝ) (p : PreparedBands) (st : ProcessingState)
    (pr : ProcessingParams) {i : ℕ} (hi : i < p.bandCount) (hph : pr.peakHold = true)
    (hlt : st.peaksLinear i < bandSmoothed f p st pr i) :
    (process f p st pr).peaksLinear i = bandSmoothed f p st pr i ∧
    (process f p st pr).peakHoldCounters i = pr.peakHoldFrames % 65536 := by
  rw [process, if_neg (by omega : ¬ p.bandCount = 0)]
  constructor
  · show (if i < p.bandCount ∧ pr.peakHold then _ else _) = _
    rw [if_pos ⟨hi, by rw [hph]⟩, if_pos hlt]
  · show (if i < p.bandCount ∧ pr.peakHold then _ else _) = _
    rw [if_pos ⟨hi, by rw [hph]⟩, if_pos hlt]

theorem process_peaks_hold (f : ℕ → ℝ) (p : PreparedBands) (st : ProcessingState)
    (pr : ProcessingParams) {i : ℕ} (hi : i < p.bandCount) (hph : pr.peakHold = true)
    (hge : ¬ st.peaksLinear i < bandSmoothed f p st pr i)
    (hc : 0 < st.peakHoldCounters i) :
    (process f p st pr).peaksLinear i = st.peaksLinear i ∧
    (process f p st pr).peakHoldCounters i = st.peakHoldCounters i - 1 := by
  rw [process, if_neg (by omega : ¬ p.bandCount = 0)]
  constructor
  · show (if i < p.bandCount ∧ pr.peakHold then _ else _) = _
    rw [if_pos ⟨hi, by rw [hph]⟩, if_neg hge, if_pos hc]
  · show (if i < p.bandCount ∧ pr.peakHold then _ else _) = _
    rw [if_pos ⟨hi, by rw [hph]⟩, if_neg hge, if_pos hc]

theorem process_peaks_decay (f : ℕ → ℝ) (p : PreparedBands) (st : ProcessingState)
    (pr : ProcessingParams) {i : ℕ} (hi : i < p.bandCount) (hph : pr.peakHold = true)
    (hge : ¬ st.peaksLinear i < bandSmoothed f p st pr i)
    (hc : st.peakHoldCounters i = 0) :
    (process f p st pr).peaksLinear i =
      (if st.minLinear < st.peaksLinear i * pr.peakDecay
        then st.peaksLinear i * pr.peakDecay else st.minLinear) ∧
    (process f p st pr).peakHoldCounters i = 0 := by
  rw [process, if_neg (by omega : ¬ p.bandCount = 0)]
  constructor
  · show (if i < p.bandCount ∧ pr.peakHold then _ else _) = _
    rw [if_pos ⟨hi, by rw [hph]⟩, if_neg hge, if_neg (by omega)]
  · show (if i < p.bandCount ∧ pr.peakHold then _ else _) = _
    rw [if_pos ⟨hi, by rw [hph]⟩, if_neg hge, if_neg (by omega), hc]

/-- With a silent frame (all bins at or below the floor), a well-formed band
and `extraSmoothing = 0`, the EMA value is exactly the state floor. -/
theorem bandSmoothed_silent (f : ℕ → ℝ) (p : PreparedBands) (st : ProcessingState)
    (pr : ProcessingParams) {i : ℕ}
    (hsil : ∀ bin, f bin ≤ DB_MIN) (hES : pr.extraSmoothing = 0)
    (hbins : p.binStarts i ≤ p.binEnds i)
    (hm : MIN_LINEAR_POWER ≤ st.minLinear) :
    bandSmoothed f p st pr i = st.minLinear := by
  have havg : bandAvg f p i = MIN_LINEAR_POWER := by
    rw [bandAvg, sumBins]
    have hconv : ∀ bin ∈ Finset.Icc (p.binStarts i) (p.binEnds i),
        binToLinear (f bin) = MIN_LINEAR_POWER := by
      intro bin _
      rw [binToLinear, if_pos (hsil bin)]
    rw [Finset.sum_congr rfl hconv, Finset.sum_const, Nat.card_Icc]
    have hcast : ((p.binEnds i + 1 - p.binStarts i : ℕ) : ℝ) =
        ((p.binEnds i : ℝ) - (p.binStarts i : ℝ)) + 1 := by
      have h1 : p.binStarts i ≤ p.binEnds i + 1 := by omega
      push_cast [Nat.cast_sub h1]
      ring
    have hpos : ((p.binEnds i : ℝ) - (p.binStarts i : ℝ)) + 1 ≠ 0 := by
      have : (p.binStarts i : ℝ) ≤ (p.binEnds i : ℝ) := by exact_mod_cast hbins
      intro hcon
      nlinarith
    rw [nsmul_eq_mul, hcast]
    field_simp
  rw [bandSmoothed, havg, hES, if_neg (by linarith)]
  ring

theorem if_lt_max (M x : ℝ) : (if M < x then x else M) = max x M := by
  rcases le_or_lt x M with h | h
  · rw [if_neg (not_lt.2 h), max_eq_right h]
  · rw [if_pos h, max_eq_left (le_of_lt h)]

set_option maxHeartbeats 1000000 in
/-- C2 (amended): with peak hold on, `peakDecay ∈ (0,1)`, `extraSmoothing = 0`
(silence immediately drops the EMA to the floor, so the peak is never
re-triggered), `peakHoldFrames < 2^16` (see the `Uint16Array` truncation),
a well-formed band whose current peak is at least the floor, and one spike
frame that raises the EMA above the current peak followed by silent frames:
the peak stays constant for exactly `peakHoldFrames` silent calls; the next
call and every call after it updates `peak ← max(peak·peakDecay, minLinear)`,
which is strictly below the previous peak while that is above the floor
(and in particular strictly below the held peak right after the hold ends),
and never drops below `minLinear`. -/
theorem C2_peak_hold_then_decay_amended
    (fSpike fSil : ℕ → ℝ) (p : PreparedBands) (st : ProcessingState)
    (pr : ProcessingParams) (i : ℕ) (P : ℝ) (stk : ℕ → ProcessingState)
    (hph : pr.peakHold = true)
    (hd0 : 0 < pr.peakDecay) (hd1 : pr.peakDecay < 1)
    (hES : pr.extraSmoothing = 0)
    (hhf : pr.peakHoldFrames < 65536)
    (hi : i < p.bandCount)
    (hbins : p.binStarts i ≤ p.binEnds i)
    (hsil : ∀ bin, fSil bin ≤ DB_MIN)
    (hm : MIN_LINEAR_POWER ≤ st.minLinear)
    (hpk : st.minLinear ≤ st.peaksLinear i)
    (hspike : st.peaksLinear i < bandSmoothed fSpike p st pr i)
    (hP : P = bandSmoothed fSpike p st pr i)
    (hstk : stk = processIter fSil p pr (process fSpike p st pr)) :
    (∀ k, k ≤ pr.peakHoldFrames → (stk k).peaksLinear i = P) ∧
    ((stk (pr.peakHoldFrames + 1)).peaksLinear i =
        max (P * pr.peakDecay) st.minLinear ∧
      (stk (pr.peakHoldFrames + 1)).peaksLinear i < P) ∧
    (∀ k, pr.peakHoldFrames < k →
      (stk (k + 1)).peaksLinear i =
        max ((stk k).peaksLinear i * pr.peakDecay) st.minLinear) ∧
    (∀ k, st.minLinear ≤ (stk k).peaksLinear i) ∧
    (∀ k, pr.peakHoldFrames < k → st.minLinear < (stk k).peaksLinear i →
      (stk (k + 1)).peaksLinear i < (stk k).peaksLinear i) := by
  subst hP hstk
  set hf := pr.peakHoldFrames with hhfdef
  set P := bandSmoothed fSpike p st pr i with hPdef
  set stk := processIter fSil p pr (process fSpike p st pr) with hstkdef
  have hstep_eq : ∀ k, stk (k + 1) = process fSil p (stk k) pr := fun k => rfl
  have hMpos : 0 < st.minLinear := lt_of_lt_of_le MIN_LINEAR_POWER_pos hm
  have hPM : st.minLinear < P := lt_of_le_of_lt hpk hspike
  have hPpos : 0 < P := lt_trans hMpos hPM
  -- the floor field is constant along the iteration
  have hminIter : ∀ k, (stk k).minLinear = st.minLinear := by
    intro k
    induction k with
    | zero => exact process_minLinear _ _ _ _
    | succ k ih => rw [hstep_eq k, process_minLinear, ih]
  -- every silent frame computes the floor as its EMA value
  have hsm : ∀ k, bandSmoothed fSil p (stk k) pr i = st.minLinear := by
    intro k
    have h := bandSmoothed_silent fSil p (stk k) pr hsil hES hbins
      (by rw [hminIter k]; exact hm)
    rw [h, hminIter k]
  -- hold phase
  have hhold : ∀ k, k ≤ hf →
      (stk k).peaksLinear i = P ∧ (stk k).peakHoldCounters i = hf - k := by
    intro k
    induction k with
    | zero =>
      intro _
      have h0 := process_peaks_newpeak fSpike p st pr hi hph hspike
      exact ⟨h0.1, by rw [show stk 0 = process fSpike p st pr from rfl, h0.2,
        Nat.mod_eq_of_lt hhf, Nat.sub_zero]⟩
    | succ k ih =>
      intro hk1
      obtain ⟨hpk', hc'⟩ := ih (by omega)
      have hcpos : 0 < (stk k).peakHoldCounters i := by rw [hc']; omega
      have hge : ¬ (stk k).peaksLinear i < bandSmoothed fSil p (stk k) pr i := by
        rw [hsm k, hpk']
        exact not_lt.2 (le_of_lt hPM)
      have hstep := process_peaks_hold fSil p (stk k) pr hi hph hge hcpos
      refine ⟨?_, ?_⟩
      · rw [hstep_eq k, hstep.1, hpk']
      · rw [hstep_eq k, hstep.2, hc']
        omega
  -- decay phase invariant
  have hpost : ∀ k, hf < k →
      (stk k).peakHoldCounters i = 0 ∧ st.minLinear ≤ (stk k).peaksLinear i ∧
      (stk k).peaksLinear i ≤ P := by
    intro k
    induction k with
    | zero => omega
    | succ k ih =>
      intro hk
      rcases Nat.lt_or_ge hf k with hfk | hfk
      · -- later decay steps
        obtain ⟨hc0, hge0, hle0⟩ := ih hfk
        have hge : ¬ (stk k).peaksLinear i < bandSmoothed fSil p (stk k) pr i := by
          rw [hsm k]
          exact not_lt.2 hge0
        have hstep := process_peaks_decay fSil p (stk k) pr hi hph hge hc0
        rw [hstep_eq k, hstep.1, hminIter k]
        refine ⟨hstep.2, ?_, ?_⟩
        · split_ifs with h
          · linarith
          · exact le_refl _
        · split_ifs with h
          · nlinarith
          · linarith
      · -- first decay step, right after the hold expires
        obtain ⟨hpk', hc'⟩ := hhold k (by omega)
        have hc0 : (stk k).peakHoldCounters i = 0 := by rw [hc']; omega
        have hge : ¬ (stk k).peaksLinear i < bandSmoothed fSil p (stk k) pr i := by
          rw [hsm k, hpk']
          exact not_lt.2 (le_of_lt hPM)
        have hstep := process_peaks_decay fSil p (stk k) pr hi hph hge hc0
        rw [hstep_eq k, hstep.1, hminIter k]
        refine ⟨hstep.2, ?_, ?_⟩
        · split_ifs with h
          · linarith
          · exact le_refl _
        · rw [hpk']
          split_ifs with h
          · nlinarith
          · linarith
  refine ⟨fun k hk => (hhold k hk).1, ?_, ?_, ?_, ?_⟩
  · -- the call right after the hold: decay by peakDecay, clamped, strictly below P
    obtain ⟨hpk', hc'⟩ := hhold hf (le_refl _)
    have hc0 : (stk hf).peakHoldCounters i = 0 := by rw [hc']; omega
    have hge : ¬ (stk hf).peaksLinear i < bandSmoothed fSil p (stk hf) pr i := by
      rw [hsm hf, hpk']
      exact not_lt.2 (le_of_lt hPM)
    have hstep := process_peaks_decay fSil p (stk hf) pr hi hph hge hc0
    rw [hstep_eq hf, hstep.1, hminIter hf, hpk', if_lt_max]
    constructor
    · rfl
    · rcases le_or_lt (P * pr.peakDecay) st.minLinear with h | h
      · rw [max_eq_right h]; exact hPM
      · rw [max_eq_left (le_of_lt h)]; nlinarith
  · -- every later call applies the clamped geometric decay
    intro k hk
    obtain ⟨hc0, hge0, -⟩ := hpost k hk
    have hge : ¬ (stk k).peaksLinear i < bandSmoothed fSil p (stk k) pr i := by
      rw [hsm k]
      exact not_lt.2 hge0
    have hstep := process_peaks_decay fSil p (stk k) pr hi hph hge hc0
    rw [hstep_eq k, hstep.1, hminIter k, if_lt_max]
  · -- the peak never drops below the floor
    intro k
    rcases Nat.lt_or_ge hf k with hfk | hfk
    · exact (hpost k hfk).2.1
    · rw [(hhold k hfk).1]
      exact le_of_lt hPM
  · -- strict decrease while above the floor
    intro k hk hq
    obtain ⟨hc0, hge0, -⟩ := hpost k hk
    have hge : ¬ (stk k).peaksLinear i < bandSmoothed fSil p (stk k) pr i := by
      rw [hsm k]
      exact not_lt.2 hge0
    have hstep := process_peaks_decay fSil p (stk k) pr hi hph hge hc0
    rw [hstep_eq k, hstep.1, hminIter k]
    split_ifs with h
    · nlinarith
    · exact hq

/-! Concrete fixture for the C2 peak-hold scenario: one band over bin 0,
`extraSmoothing = 0`, `peakDecay = 1/2`, `peakHoldFrames = 1`, state floor
`minLinear = 1/2`, spike frame at 0 dB, silent frame at -200 dB. -/

def c2Prepared : PreparedBands := ⟨fun _ => 0, fun _ => 0, 1⟩

def c2Params : ProcessingParams := ⟨-3, 0, true, 1/2, 1⟩

def c2State : ProcessingState :=
  ⟨fun _ => 1/2, fun _ => 1/2, fun _ => 0, fun _ => -100, fun _ => -100, 1/2⟩

def c2Spike : ℕ → ℝ := fun _ => 0

def c2Silent : ℕ → ℝ := fun _ => -200

theorem c2_spike_smoothed : bandSmoothed c2Spike c2Prepared c2State c2Params 0 = 1 := by
  have havg : bandAvg c2Spike c2Prepared 0 = 1 := by
    rw [bandAvg, sumBins, show c2Prepared.binStarts 0 = 0 from rfl,
      show c2Prepared.binEnds 0 = 0 from rfl, Finset.Icc_self, Finset.sum_singleton,
      show c2Spike 0 = 0 from rfl, binToLinear, if_neg (by norm_num [DB_MIN]),
      if_pos (le_refl (0:ℝ)), MAX_LINEAR_POWER]
    norm_num
  rw [bandSmoothed, havg, show c2State.minLinear = 1/2 from rfl,
    if_pos (by norm_num : (1:ℝ)/2 < 1),
    show c2State.smoothedLinear 0 = 1/2 from rfl,
    show c2Params.extraSmoothing = 0 from rfl]
  norm_num

theorem c2_silent_le : ∀ bin, c2Silent bin ≤ DB_MIN := fun _ => by norm_num [c2Silent, DB_MIN]

theorem c2_min_le : MIN_LINEAR_POWER ≤ c2State.minLinear := by
  rw [show c2State.minLinear = 1/2 from rfl, MIN_LINEAR_POWER_eq]
  norm_num

/-- C2 witness: the amended peak-hold theorem applied to the concrete
fixture (`peakHoldFrames = 1`): the peak is still held after 1 silent call
and strictly lower after the second. -/
theorem C2_peak_hold_witness :
    (processIter c2Silent c2Prepared c2Params
      (process c2Spike c2Prepared c2State c2Params) 1).peaksLinear 0 = 1 ∧
    (processIter c2Silent c2Prepared c2Params
      (process c2Spike c2Prepared c2State c2Params) 2).peaksLinear 0 < 1 := by
  have h := C2_peak_hold_then_decay_amended c2Spike c2Silent c2Prepared c2State c2Params 0 1
    (processIter c2Silent c2Prepared c2Params (process c2Spike c2Prepared c2State c2Params))
    rfl (by norm_num [c2Params]) (by norm_num [c2Params]) rfl (by norm_num [c2Params])
    (by norm_num [c2Prepared]) (by norm_num [c2Prepared])
    c2_silent_le
    c2_min_le
    (by rw [show c2State.minLinear = 1/2 from rfl, show c2State.peaksLinear 0 = 1/2 from rfl])
    (by rw [c2_spike_smoothed, show c2State.peaksLinear 0 = 1/2 from rfl]; norm_num)
    c2_spike_smoothed.symm rfl
  exact ⟨h.1 1 (by norm_num [c2Params]), h.2.1.2⟩

/-- C2 (counterexample): in the same run, the second and third post-spike
silent calls leave the peak at the floor `1/2` — the peak does not strictly
decrease on every call after the hold expires, because the geometric decay is
clamped at `minLinear`. -/
theorem C2_strict_decay_counterexample :
    (processIter c2Silent c2Prepared c2Params
      (process c2Spike c2Prepared c2State c2Params) 2).peaksLinear 0 = 1/2 ∧
    (processIter c2Silent c2Prepared c2Params
      (process c2Spike c2Prepared c2State c2Params) 3).peaksLinear 0 = 1/2 := by
  have hi : 0 < c2Prepared.bandCount := by norm_num [c2Prepared]
  have hbins : c2Prepared.binStarts 0 ≤ c2Prepared.binEnds 0 := by norm_num [c2Prepared]
  have hspike : c2State.peaksLinear 0 < bandSmoothed c2Spike c2Prepared c2State c2Params 0 := by
    rw [c2_spike_smoothed, show c2State.peaksLinear 0 = 1/2 from rfl]
    norm_num
  -- state after the spike call
  have h1 := process_peaks_newpeak c2Spike c2Prepared c2State c2Params hi rfl hspike
  have h1p : (process c2Spike c2Prepared c2State c2Params).peaksLinear 0 = 1 := by
    rw [h1.1, c2_spike_smoothed]
  have h1c : (process c2Spike c2Prepared c2State c2Params).peakHoldCounters 0 = 1 := by
    rw [h1.2]
    norm_num [c2Params]
  have hmin1 : (process c2Spike c2Prepared c2State c2Params).minLinear = 1/2 := by
    rw [process_minLinear, show c2State.minLinear = 1/2 from rfl]
  have hsm1 : bandSmoothed c2Silent c2Prepared
      (process c2Spike c2Prepared c2State c2Params) c2Params 0 = 1/2 := by
    rw [bandSmoothed_silent c2Silent c2Prepared _ c2Params c2_silent_le rfl hbins
      (by rw [hmin1, MIN_LINEAR_POWER_eq]; norm_num), hmin1]
  -- first silent call: hold
  have h2 := process_peaks_hold c2Silent c2Prepared
    (process c2Spike c2Prepared c2State c2Params) c2Params hi rfl
    (by rw [hsm1, h1p]; norm_num) (by rw [h1c]; norm_num)
  have h2p : (processIter c2Silent c2Prepared c2Params
      (process c2Spike c2Prepared c2State c2Params) 1).peaksLinear 0 = 1 := by
    rw [show processIter c2Silent c2Prepared c2Params
      (process c2Spike c2Prepared c2State c2Params) 1 =
      process c2Silent c2Prepared (process c2Spike c2Prepared c2State c2Params) c2Params
      from rfl, h2.1, h1p]
  have h2c : (processIter c2Silent c2Prepared c2Params
      (process c2Spike c2Prepared c2State c2Params) 1).peakHoldCounters 0 = 0 := by
    rw [show processIter c2Silent c2Prepared c2Params
      (process c2Spike c2Prepared c2State c2Params) 1 =
      process c2Silent c2Prepared (process c2Spike c2Prepared c2State c2Params) c2Params
      from rfl, h2.2, h1c]
  have hmin2 : (processIter c2Silent c2Prepared c2Params
      (process c2Spike c2Prepared c2State c2Params) 1).minLinear = 1/2 := by
    rw [show processIter c2Silent c2Prepared c2Params
      (process c2Spike c2Prepared c2State c2Params) 1 =
      process c2Silent c2Prepared (process c2Spike c2Prepared c2State c2Params) c2Params
      from rfl, process_minLinear, hmin1]
  have hsm2 : bandSmoothed c2Silent c2Prepared
      (processIter c2Silent c2Prepared c2Params
        (process c2Spike c2Prepared c2State c2Params) 1) c2Params 0 = 1/2 := by
    rw [bandSmoothed_silent c2Silent c2Prepared _ c2Params c2_silent_le rfl hbins
      (by rw [hmin2, MIN_LINEAR_POWER_eq]; norm_num), hmin2]
  -- second silent call: first decay, clamped exactly at the floor
  have h3 := process_peaks_decay c2Silent c2Prepared
    (processIter c2Silent c2Prepared c2Params
      (process c2Spike c2Prepared c2State c2Params) 1) c2Params hi rfl
    (by rw [hsm2, h2p]; norm_num) h2c
  have h3p : (processIter c2Silent c2Prepared c2Params
      (process c2Spike c2Prepared c2State c2Params) 2).peaksLinear 0 = 1/2 := by
    rw [show processIter c2Silent c2Prepared c2Params
      (process c2Spike c2Prepared c2State c2Params) 2 =
      process c2Silent c2Prepared (processIter c2Silent c2Prepared c2Params
        (process c2Spike c2Prepared c2State c2Params) 1) c2Params from rfl, h3.1,
      hmin2, h2p, show c2Params.peakDecay = 1/2 from rfl]
    norm_num
  have h3c : (processIter c2Silent c2Prepared c2Params
      (process c2Spike c2Prepared c2State c2Params) 2).peakHoldCounters 0 = 0 := by
    rw [show processIter c2Silent c2Prepared c2Params
      (process c2Spike c2Prepared c2State c2Params) 2 =
      process c2Silent c2Prepared (processIter c2Silent c2Prepared c2Params
        (process c2Spike c2Prepared c2State c2Params) 1) c2Params from rfl, h3.2]
  have hmin3 : (processIter c2Silent c2Prepared c2Params
      (process c2Spike c2Prepared c2State c2Params) 2).minLinear = 1/2 := by
    rw [show processIter c2Silent c2Prepared c2Params
      (process c2Spike c2Prepared c2State c2Params) 2 =
      process c2Silent c2Prepared (processIter c2Silent c2Prepared c2Params
        (process c2Spike c2Prepared c2State c2Params) 1) c2Params from rfl,
      process_minLinear, hmin2]
  have hsm3 : bandSmoothed c2Silent c2Prepared
      (processIter c2Silent c2Prepared c2Params
        (process c2Spike c2Prepared c2State c2Params) 2) c2Params 0 = 1/2 := by
    rw [bandSmoothed_silent c2Silent c2Prepared _ c2Params c2_silent_le rfl hbins
      (by rw [hmin3, MIN_LINEAR_POWER_eq]; norm_num), hmin3]
  -- third silent call: decay again, still pinned at the floor (no strict decrease)
  have h4 := process_peaks_decay c2Silent c2Prepared
    (processIter c2Silent c2Prepared c2Params
      (process c2Spike c2Prepared c2State c2Params) 2) c2Params hi rfl
    (by rw [hsm3, h3p]; norm_num) h3c
  have h4p : (processIter c2Silent c2Prepared c2Params
      (process c2Spike c2Prepared c2State c2Params) 3).peaksLinear 0 = 1/2 := by
    rw [show processIter c2Silent c2Prepared c2Params
      (process c2Spike c2Prepared c2State c2Params) 3 =
      process c2Silent c2Prepared (processIter c2Silent c2Prepared c2Params
        (process c2Spike c2Prepared c2State c2Params) 2) c2Params from rfl, h4.1,
      hmin3, h3p, show c2Params.peakDecay = 1/2 from rfl]
    norm_num
  exact ⟨h3p, h4p⟩

/-- C10 (claim): the hold counters live in a `Uint16Array`, so recording a
new peak stores `peakHoldFrames mod 2^16`: the stored value is always below
2^16 and differs from any requested `peakHoldFrames ≥ 65536`. -/
theorem C10_uint16_hold_truncation (f : ℕ → ℝ) (p : PreparedBands)
    (st : ProcessingState) (pr : ProcessingParams) (i : ℕ)
    (hi : i < p.bandCount) (hph : pr.peakHold = true)
    (hlt : st.peaksLinear i < bandSmoothed f p st pr i) :
    (process f p st pr).peakHoldCounters i = pr.peakHoldFrames % 65536 ∧
    (process f p st pr).peakHoldCounters i < 65536 ∧
    (65536 ≤ pr.peakHoldFrames →
      (process f p st pr).peakHoldCounters i ≠ pr.peakHoldFrames) := by
  have h := (process_peaks_newpeak f p st pr hi hph hlt).2
  have hmod : pr.peakHoldFrames % 65536 < 65536 := Nat.mod_lt _ (by norm_num)
  refine ⟨h, by rw [h]; exact hmod, fun hge => by rw [h]; omega⟩

/-- Parameters requesting a 65536-frame hold (= 0 after Uint16 truncation). -/
def c10Params : ProcessingParams := ⟨-3, 0, true, 1/2, 65536⟩

theorem c10_spike_smoothed : bandSmoothed c2Spike c2Prepared c2State c10Params 0 = 1 := by
  have havg : bandAvg c2Spike c2Prepared 0 = 1 := by
    rw [bandAvg, sumBins, show c2Prepared.binStarts 0 = 0 from rfl,
      show c2Prepared.binEnds 0 = 0 from rfl, Finset.Icc_self, Finset.sum_singleton,
      show c2Spike 0 = 0 from rfl, binToLinear, if_neg (by norm_num [DB_MIN]),
      if_pos (le_refl (0:ℝ)), MAX_LINEAR_POWER]
    norm_num
  rw [bandSmoothed, havg, show c2State.minLinear = 1/2 from rfl,
    if_pos (by norm_num : (1:ℝ)/2 < 1),
    show c2State.smoothedLinear 0 = 1/2 from rfl,
    show c10Params.extraSmoothing = 0 from rfl]
  norm_num

/-- C10 witness: requesting `peakHoldFrames = 65536` stores a zero counter. -/
theorem C10_uint16_hold_witness :
    (process c2Spike c2Prepared c2State c10Params).peakHoldCounters 0 = 0 ∧
    (65536 : ℕ) ≤ c10Params.peakHoldFrames ∧
    (process c2Spike c2Prepared c2State c10Params).peakHoldCounters 0 ≠
      c10Params.peakHoldFrames := by
  have hsp : c2State.peaksLinear 0 < bandSmoothed c2Spike c2Prepared c2State c10Params 0 := by
    rw [c10_spike_smoothed, show c2State.peaksLinear 0 = 1/2 from rfl]
    norm_num
  have h := C10_uint16_hold_truncation c2Spike c2Prepared c2State c10Params 0
    (by norm_num [c2Prepared]) rfl hsp
  refine ⟨?_, by norm_num [c10Params], h.2.2 (by norm_num [c10Params])⟩
  rw [h.1]
  norm_num [c10Params]

/-! The second frame-processor copy: the per-band loop of `getFrequencyData`
in the `useAudioRta` composable.  Same aggregation, EMA and peak logic, but
the dB outputs are derived inline via the non-interpolated inverse lookup,
the peak comparison uses the clamped smoothed value, and the hold count is
the constant `PEAK_HOLD_FRAMES`. -/

def PEAK_HOLD_FRAMES : ℕ := 30

/-- The inline `linear → dB` output conversion of `getFrequencyData`
(textually identical to `fastLinearToDb`, with the literal `0` for the upper
saturation). -/
def gfdOut (x : ℝ) : ℝ :=
  if x ≤ MIN_LINEAR_POWER then DB_MIN
  else if MAX_LINEAR_POWER ≤ x then 0
  else
    let idx := jsTrunc ((Real.log x - LOG_MIN_LINEAR) / LOG_LINEAR_RANGE *
      (LUT_SIZE_MINUS_1 : ℝ) + 0.5)
    linearToDbLUT (if idx < (LUT_SIZE : ℤ) then idx.toNat else LUT_SIZE_MINUS_1)

theorem gfdOut_eq_fastLinearToDb : gfdOut = fastLinearToDb := rfl

/-- `avg = sumLinear / count` in `getFrequencyData`. -/
def gfdAvg (f : ℕ → ℝ) (p : PreparedBands) (i : ℕ) : ℝ :=
  sumBins f (p.binStarts i) (p.binEnds i) /
    (((p.binEnds i : ℝ) - (p.binStarts i : ℝ)) + 1)

/-- `smoothedClamped` for band `i` in `getFrequencyData`. -/
def gfdSmoothedClamped (f : ℕ → ℝ) (p : PreparedBands) (st : ProcessingState)
    (pr : ProcessingParams) (i : ℕ) : ℝ :=
  let smoothed := st.smoothedLinear i * pr.extraSmoothing +
    (if st.minLinear < gfdAvg f p i then gfdAvg f p i else st.minLinear) *
      (1 - pr.extraSmoothing)
  if st.minLinear < smoothed then smoothed else st.minLinear

/-- The updated peak for band `i` in `getFrequencyData`. -/
def gfdNewPeak (f : ℕ → ℝ) (p : PreparedBands) (st : ProcessingState)
    (pr : ProcessingParams) (i : ℕ) : ℝ :=
  if st.peaksLinear i < gfdSmoothedClamped f p st pr i then gfdSmoothedClamped f p st pr i
  else if 0 < st.peakHoldCounters i then st.peaksLinear i
  else
    if st.minLinear < st.peaksLinear i * pr.peakDecay
      then st.peaksLinear i * pr.peakDecay else st.minLinear

/-- The per-band loop of `getFrequencyData`, as a state transformer. -/
def gfdProcess (f : ℕ → ℝ) (p : PreparedBands) (st : ProcessingState)
    (pr : ProcessingParams) : ProcessingState :=
  if p.bandCount = 0 then st
  else
    { smoothedLinear := fun i =>
        if i < p.bandCount then gfdSmoothedClamped f p st pr i else st.smoothedLinear i
      peaksLinear := fun i =>
        if i < p.bandCount ∧ pr.peakHold then gfdNewPeak f p st pr i else st.peaksLinear i
      peakHoldCounters := fun i =>
        if i < p.bandCount ∧ pr.peakHold then
          if st.peaksLinear i < gfdSmoothedClamped f p st pr i then PEAK_HOLD_FRAMES % 65536
          else if 0 < st.peakHoldCounters i then st.peakHoldCounters i - 1
          else st.peakHoldCounters i
        else st.peakHoldCounters i
      smoothedDb := fun i =>
        if i < p.bandCount then gfdOut (gfdSmoothedClamped f p st pr i) else st.smoothedDb i
      peaksDb := fun i =>
        if i < p.bandCount ∧ pr.peakHold then gfdOut (gfdNewPeak f p st pr i) else st.peaksDb i
      minLinear := st.minLinear }

/-- C1 (counterexample): `process` never writes the dB output arrays — after a
spike that drives `smoothedLinear[0]` to 1, `smoothedDb[0]` still holds its
old value `-100`, not `linearToDb(smoothedLinear[0]) = 0`. -/
theorem C1_process_no_db_counterexample :
    (process c2Spike c2Prepared c2State c2Params).smoothedDb 0 = -100 ∧
    linearToDb ((process c2Spike c2Prepared c2State c2Params).smoothedLinear 0) = 0 ∧
    ((-100 : ℝ) ≠ 0) := by
  refine ⟨?_, ?_, by norm_num⟩
  · rw [process_smoothedDb]
    rfl
  · have hsm : (process c2Spike c2Prepared c2State c2Params).smoothedLinear 0 = 1 := by
      rw [process_smoothedLinear_in c2Spike c2Prepared c2State c2Params
        (by norm_num [c2Prepared]), c2_spike_smoothed,
        show c2State.minLinear = 1/2 from rfl, if_pos (by norm_num : (1:ℝ)/2 < 1)]
    rw [hsm, linearToDb, if_neg (not_le.2 MIN_LINEAR_POWER_lt_one),
      if_pos (show MAX_LINEAR_POWER ≤ 1 by norm_num [MAX_LINEAR_POWER]), DB_MAX]

/-- C1 (amended): `process` leaves `smoothedDb`/`peaksDb` untouched; the dB
outputs are derived in the per-band loop of `getFrequencyData`, via the
non-interpolated `fastLinearToDb` lookup applied to the updated linear
values — `peaksDb` only while peak hold is enabled. -/
theorem C1_db_outputs_amended :
    (∀ (f : ℕ → ℝ) (p : PreparedBands) (st : ProcessingState) (pr : ProcessingParams),
      (process f p st pr).smoothedDb = st.smoothedDb ∧
      (process f p st pr).peaksDb = st.peaksDb) ∧
    (∀ (f : ℕ → ℝ) (p : PreparedBands) (st : ProcessingState) (pr : ProcessingParams)
      (i : ℕ), i < p.bandCount →
      (gfdProcess f p st pr).smoothedDb i =
        fastLinearToDb ((gfdProcess f p st pr).smoothedLinear i) ∧
      (pr.peakHold = true →
        (gfdProcess f p st pr).peaksDb i =
          fastLinearToDb ((gfdProcess f p st pr).peaksLinear i)) ∧
      (pr.peakHold = false → (gfdProcess f p st pr).peaksDb i = st.peaksDb i)) := by
  constructor
  · exact fun f p st pr => ⟨process_smoothedDb f p st pr, process_peaksDb f p st pr⟩
  · intro f p st pr i hi
    have hbc : ¬ p.bandCount = 0 := by omega
    refine ⟨?_, ?_, ?_⟩
    · rw [gfdProcess, if_neg hbc, ← gfdOut_eq_fastLinearToDb]
      show (if i < p.bandCount then gfdOut (gfdSmoothedClamped f p st pr i) else _) =
        gfdOut (if i < p.bandCount then gfdSmoothedClamped f p st pr i else _)
      rw [if_pos hi, if_pos hi]
    · intro hph
      rw [gfdProcess, if_neg hbc, ← gfdOut_eq_fastLinearToDb]
      show (if i < p.bandCount ∧ pr.peakHold then gfdOut (gfdNewPeak f p st pr i) else _) =
        gfdOut (if i < p.bandCount ∧ pr.peakHold then gfdNewPeak f p st pr i else _)
      rw [if_pos ⟨hi, by rw [hph]⟩, if_pos ⟨hi, by rw [hph]⟩]
    · intro hph
      rw [gfdProcess, if_neg hbc]
      show (if i < p.bandCount ∧ pr.peakHold then _ else _) = _
      rw [if_neg (by rintro ⟨-, h2⟩; rw [hph] at h2; exact Bool.false_ne_true h2)]

/-- C1 witness: the amended statement at the concrete spike fixture. -/
theorem C1_db_outputs_witness :
    (gfdProcess c2Spike c2Prepared c2State c2Params).smoothedDb 0 =
      fastLinearToDb ((gfdProcess c2Spike c2Prepared c2State c2Params).smoothedLinear 0) ∧
    (process c2Spike c2Prepared c2State c2Params).smoothedDb = c2State.smoothedDb :=
  ⟨(C1_db_outputs_amended.2 c2Spike c2Prepared c2State c2Params 0
      (by norm_num [c2Prepared])).1,
   (C1_db_outputs_amended.1 c2Spike c2Prepared c2State c2Params).1⟩

/-! Spectrogram ring buffer and colormap: `createColorMapLUT` from
`types/rta.ts` and the module state plus `ensureBufferCanvas` /
`renderSpectrogramColumn` of the spectrogram renderer.  The canvas/2d-context
machinery is external; the pixel store (`spectrogramData`, a `Uint32Array`
view of W×H RGBA pixels) is modelled as a row-major index function, and the
initial background fill as the constant packed pixel of
`RTA_COLORS.background = #1a1a2e`. -/

inductive ColorMap where
  | magma | viridis | plasma | inferno | grayscale | custom

inductive FrequencyScale where
  | logarithmic | linear

/-- The `(r, g, b)` channels of `createColorMapLUT` at normalized intensity
`t = i/255`, per the piecewise-linear breakpoints of the source. -/
def colorMapRGB (colorMap : ColorMap) (t : ℝ) : ℝ × ℝ × ℝ :=
  match colorMap with
  | ColorMap.magma =>
    if t < 0.13 then (t * 7.69 * 12, t * 7.69 * 8, t * 7.69 * 34)
    else if t < 0.35 then
      let lt := (t - 0.13) / 0.22
      (12 + lt * 103, 8 + lt * 52, 34 + lt * 106)
    else if t < 0.6 then
      let lt := (t - 0.35) / 0.25
      (115 + lt * 99, 60 + lt * 60, 140 - lt * 40)
    else if t < 0.85 then
      let lt := (t - 0.6) / 0.25
      (214 + lt * 31, 120 + lt * 90, 100 + lt * 55)
    else
      let lt := (t - 0.85) / 0.15
      (245 + lt * 10, 210 + lt * 45, 155 + lt * 100)
  | ColorMap.viridis =>
    if t < 0.2 then
      let lt := t / 0.2
      (68 - lt * 14, 1 + lt * 58, 84 + lt * 48)
    else if t < 0.4 then
      let lt := (t - 0.2) / 0.2
      (54 - lt * 21, 59 + lt * 36, 132 + lt * 20)
    else if t < 0.6 then
      let lt := (t - 0.4) / 0.2
      (33 + lt * 18, 95 + lt * 50, 152 - lt * 22)
    else if t < 0.8 then
      let lt := (t - 0.6) / 0.2
      (51 + lt * 75, 145 + lt * 56, 130 - lt * 60)
    else
      let lt := (t - 0.8) / 0.2
      (126 + lt * 127, 201 + lt * 28, 70 - lt * 17)
  | ColorMap.plasma =>
    if t < 0.25 then
      let lt := t / 0.25
      (13 + lt * 63, 8 + lt * 10, 135 + lt * 83)
    else if t < 0.5 then
      let lt := (t - 0.25) / 0.25
      (76 + lt * 97, 18 + lt * 61, 218 - lt * 35)
    else if t < 0.75 then
      let lt := (t - 0.5) / 0.25
      (173 + lt * 55, 79 + lt * 85, 183 - lt * 94)
    else
      let lt := (t - 0.75) / 0.25
      (228 + lt * 12, 164 + lt * 85, 89 - lt * 77)
  | ColorMap.inferno =>
    if t < 0.2 then
      let lt := t / 0.2
      (lt * 40, lt * 11, lt * 84)
    else if t < 0.4 then
      let lt := (t - 0.2) / 0.2
      (40 + lt * 61, 11 + lt * 44, 84 + lt * 46)
    else if t < 0.6 then
      let lt := (t - 0.4) / 0.2
      (101 + lt * 79, 55 + lt * 52, 130 - lt * 38)
    else if t < 0.8 then
      let lt := (t - 0.6) / 0.2
      (180 + lt * 56, 107 + lt * 78, 92 - lt * 49)
    else
      let lt := (t - 0.8) / 0.2
      (236 + lt * 16, 185 + lt * 67, 43 + lt * 165)
  | ColorMap.grayscale => (t * 255, t * 255, t * 255)
  | ColorMap.custom =>
    if t < 0.15 then
      let lt := t / 0.15
      (10 + lt * 15, 10 + lt * 20, 30 + lt * 30)
    else if t < 0.4 then
      let lt := (t - 0.15) / 0.25
      (25 + lt * 25, 30 + lt * 70, 60 + lt * 60)
    else if t < 0.65 then
      let lt := (t - 0.4) / 0.25
      (50 + lt * 50, 100 + lt * 80, 120 + lt * 30)
    else if t < 0.85 then
      let lt := (t - 0.65) / 0.2
      (100 + lt * 100, 180 + lt * 50, 150 - lt * 50)
    else
      let lt := (t - 0.85) / 0.15
      (200 + lt * 55, 230 + lt * 25, 100 + lt * 100)

/-- `createColorMapLUT` entry `i`:
`(255 << 24) | ((b|0) << 16) | ((g|0) << 8) | (r|0)`, written as a sum since
every truncated channel lies in `[0, 255]`. -/
def createColorMapLUT (colorMap : ColorMap) (i : ℕ) : ℕ :=
  let t : ℝ := (i : ℝ) / 255
  let rgb := colorMapRGB colorMap t
  255 * 2 ^ 24 + (jsTrunc rgb.2.2).toNat * 2 ^ 16 +
    (jsTrunc rgb.2.1).toNat * 2 ^ 8 + (jsTrunc rgb.1).toNat

def SPECTROGRAM_WIDTH : ℕ := 2048

/-- Packed background pixel of `RTA_COLORS.background = "#1a1a2e"`:
`(255 << 24) | (0x2e << 16) | (0x1a << 8) | 0x1a` (the value
`clearSpectrogramBuffer` computes and the initial fill produces). -/
def BG_PIXEL : ℕ := 255 * 2 ^ 24 + 0x2e * 2 ^ 16 + 0x1a * 2 ^ 8 + 0x1a

/-- Module state of the spectrogram renderer: the pixel store, its height and
the ring cursor. -/
structure SpectrogramBuffer where
  data : Option (ℕ → ℕ)
  bufferHeight : ℕ
  writeColumn : ℕ

/-- Read a pixel word (0 when no buffer is allocated). -/
def SpectrogramBuffer.pix (s : SpectrogramBuffer) (idx : ℕ) : ℕ :=
  match s.data with
  | none => 0
  | some d => d idx

/-- `ensureBufferCanvas(height)`: keep the buffer when the height matches,
otherwise reallocate at the new height, background-fill, copy the old rows
`y < min(oldHeight, height)` via the nearest-row mapping
`oldY = floor((y/height)·oldHeight)`, and preserve the cursor (reset to 0
when there was no old content). -/
def ensureBufferCanvas (height : ℕ) (s : SpectrogramBuffer) : SpectrogramBuffer :=
  if s.data.isSome ∧ s.bufferHeight = height then s
  else
    match s.data with
    | some oldData =>
      if 0 < s.bufferHeight then
        { data := some fun idx =>
            let y := idx / SPECTROGRAM_WIDTH
            let col := idx % SPECTROGRAM_WIDTH
            if y < min s.bufferHeight height then
              oldData (y * s.bufferHeight / height * SPECTROGRAM_WIDTH + col)
            else BG_PIXEL
          bufferHeight := height
          writeColumn := s.writeColumn }
      else
        { data := some fun _ => BG_PIXEL, bufferHeight := height, writeColumn := 0 }
    | none =>
      { data := some fun _ => BG_PIXEL, bufferHeight := height, writeColumn := 0 }

/-- The pixel `renderSpectrogramColumn` computes for row `y` of the new
column. -/
def spectrogramPixel (bandData : ℕ → ℝ) (numBands : ℕ) (minDb maxDb : ℝ)
    (height : ℕ) (colorMap : ColorMap) (gamma : ℝ) (frequencyScale : FrequencyScale)
    (y : ℕ) : ℕ :=
  let minFreq : ℝ := 20
  let maxFreq : ℝ := 20000
  let logMin := Real.logb 10 minFreq
  let logMax := Real.logb 10 maxFreq
  let normalizedY : ℝ := ((height : ℝ) - 1 - (y : ℝ)) / ((height : ℝ) - 1)
  let bandIndex : ℤ :=
    match frequencyScale with
    | FrequencyScale.logarithmic =>
      let logFreq := logMin + normalizedY * (logMax - logMin)
      let bandNormalized := (logFreq - logMin) / (logMax - logMin)
      ⌊bandNormalized * ((numBands : ℝ) - 1)⌋
    | FrequencyScale.linear =>
      let freq := minFreq + normalizedY * (maxFreq - minFreq)
      let logFreq := Real.logb 10 freq
      let bandNormalized := (logFreq - logMin) / (logMax - logMin)
      ⌊bandNormalized * ((numBands : ℝ) - 1)⌋
  let bandClamped : ℤ := max 0 (min ((numBands : ℤ) - 1) bandIndex)
  let db := bandData bandClamped.toNat
  let normalized0 := (db - minDb) * (1 / (maxDb - minDb))
  let normalized1 := if normalized0 < 0 then 0 else if 1 < normalized0 then 1 else normalized0
  let normalized2 := if gamma = 1 then normalized1 else normalized1 ^ gamma
  createColorMapLUT colorMap (jsTrunc (normalized2 * 255)).toNat

/-- `renderSpectrogramColumn`: write one color-mapped column at the cursor,
then advance the cursor by one mod W. -/
def renderSpectrogramColumn (bandData : ℕ → ℝ) (numBands : ℕ) (minDb maxDb : ℝ)
    (height : ℕ) (colorMap : ColorMap) (gamma : ℝ) (frequencyScale : FrequencyScale)
    (s : SpectrogramBuffer) : SpectrogramBuffer :=
  let s1 := ensureBufferCanvas height s
  match s1.data with
  | none => s1
  | some d =>
    { data := some fun idx =>
        if idx % SPECTROGRAM_WIDTH = s1.writeColumn ∧ idx / SPECTROGRAM_WIDTH < height then
          spectrogramPixel bandData numBands minDb maxDb height colorMap gamma
            frequencyScale (idx / SPECTROGRAM_WIDTH)
        else d idx
      bufferHeight := s1.bufferHeight
      writeColumn := (s1.writeColumn + 1) % SPECTROGRAM_WIDTH }

/-- C7 (counterexample): growing the buffer from height 1 to height 2 leaves
row 1 at the background pixel; the claim's nearest-row formula demands the
old row `floor(1/2·1) = 0`, whose pixels hold 7 ≠ background.  So resampling
covers only rows `< min(oldHeight, newHeight)`, not every new row. -/
theorem C7_resize_counterexample :
    (ensureBufferCanvas 2 ⟨some fun _ => 7, 1, 5⟩).pix
        (1 * SPECTROGRAM_WIDTH + 0) = BG_PIXEL ∧
    (1 * 1 / 2) * SPECTROGRAM_WIDTH + 0 = 0 ∧
    (⟨some fun _ => 7, 1, 5⟩ : SpectrogramBuffer).pix 0 = 7 ∧
    BG_PIXEL ≠ 7 := by
  refine ⟨?_, by norm_num, rfl, by norm_num [BG_PIXEL]⟩
  simp only [ensureBufferCanvas, SpectrogramBuffer.pix]
  norm_num [SPECTROGRAM_WIDTH]

/-- C7 (amended): on a height change with an existing buffer of positive
height, the new buffer resamples the old one by nearest row for the rows
`newY < min(oldHeight, newHeight)` (via `oldY = floor(newY/newHeight ·
oldHeight)`), fills the remaining rows with the background pixel, and
preserves the write cursor. -/
theorem C7_resize_amended (height : ℕ) (s : SpectrogramBuffer)
    (hsome : s.data.isSome = true) (hpos : 0 < s.bufferHeight)
    (hne : s.bufferHeight ≠ height) :
    (ensureBufferCanvas height s).writeColumn = s.writeColumn ∧
    (ensureBufferCanvas height s).bufferHeight = height ∧
    (∀ y col, col < SPECTROGRAM_WIDTH → y < min s.bufferHeight height →
      (ensureBufferCanvas height s).pix (y * SPECTROGRAM_WIDTH + col) =
        s.pix (y * s.bufferHeight / height * SPECTROGRAM_WIDTH + col)) ∧
    (∀ y col, col < SPECTROGRAM_WIDTH → min s.bufferHeight height ≤ y →
      (ensureBufferCanvas height s).pix (y * SPECTROGRAM_WIDTH + col) = BG_PIXEL) := by
  obtain ⟨oldData, hold⟩ := Option.isSome_iff_exists.1 hsome
  have hresult : ensureBufferCanvas height s =
      { data := some fun idx =>
          let y := idx / SPECTROGRAM_WIDTH
          let col := idx % SPECTROGRAM_WIDTH
          if y < min s.bufferHeight height then
            oldData (y * s.bufferHeight / height * SPECTROGRAM_WIDTH + col)
          else BG_PIXEL
        bufferHeight := height
        writeColumn := s.writeColumn } := by
    rw [ensureBufferCanvas, if_neg (by rintro ⟨-, h⟩; exact hne h), hold]
    exact if_pos hpos
  have hdivmod : ∀ y col : ℕ, col < SPECTROGRAM_WIDTH →
      (y * SPECTROGRAM_WIDTH + col) / SPECTROGRAM_WIDTH = y ∧
      (y * SPECTROGRAM_WIDTH + col) % SPECTROGRAM_WIDTH = col := by
    intro y col hcol
    rw [SPECTROGRAM_WIDTH] at hcol ⊢
    omega
  refine ⟨by rw [hresult], by rw [hresult], ?_, ?_⟩
  · intro y col hcol hy
    rw [hresult, SpectrogramBuffer.pix]
    show (if (y * SPECTROGRAM_WIDTH + col) / SPECTROGRAM_WIDTH < min s.bufferHeight height
      then oldData (((y * SPECTROGRAM_WIDTH + col) / SPECTROGRAM_WIDTH) * s.bufferHeight /
        height * SPECTROGRAM_WIDTH + (y * SPECTROGRAM_WIDTH + col) % SPECTROGRAM_WIDTH)
      else BG_PIXEL) = s.pix (y * s.bufferHeight / height * SPECTROGRAM_WIDTH + col)
    rw [(hdivmod y col hcol).1, (hdivmod y col hcol).2, if_pos hy, SpectrogramBuffer.pix, hold]
  · intro y col hcol hy
    rw [hresult, SpectrogramBuffer.pix]
    show (if (y * SPECTROGRAM_WIDTH + col) / SPECTROGRAM_WIDTH < min s.bufferHeight height
      then oldData (((y * SPECTROGRAM_WIDTH + col) / SPECTROGRAM_WIDTH) * s.bufferHeight /
        height * SPECTROGRAM_WIDTH + (y * SPECTROGRAM_WIDTH + col) % SPECTROGRAM_WIDTH)
      else BG_PIXEL) = BG_PIXEL
    rw [(hdivmod y col hcol).1, if_neg (by omega)]

/-- C7 witness: the amended statement at the concrete shrink 1→2 instance:
cursor preserved and row 0 resampled from old row 0. -/
theorem C7_resize_witness :
    (ensureBufferCanvas 2 ⟨some fun _ => 7, 1, 5⟩).writeColumn = 5 ∧
    (ensureBufferCanvas 2 ⟨some fun _ => 7, 1, 5⟩).pix (0 * SPECTROGRAM_WIDTH + 3) = 7 := by
  have h := C7_resize_amended 2 ⟨some fun _ => 7, 1, 5⟩ rfl (by norm_num) (by norm_num)
  refine ⟨h.1, ?_⟩
  rw [h.2.2.1 0 3 (by norm_num [SPECTROGRAM_WIDTH]) (by norm_num)]
  rfl

theorem ensureBufferCanvas_isSome (height : ℕ) (s : SpectrogramBuffer) :
    (ensureBufferCanvas height s).data.isSome = true := by
  rw [ensureBufferCanvas]
  rcases hsd : s.data with _ | d
  · rw [if_neg (by rintro ⟨h1, -⟩; simp at h1)]
    rfl
  · split_ifs with h1 h2
    · rw [hsd]
      rfl
    · rfl
    · rfl

theorem ensureBufferCanvas_writeColumn_lt (height : ℕ) (s : SpectrogramBuffer)
    (h : s.writeColumn < SPECTROGRAM_WIDTH) :
    (ensureBufferCanvas height s).writeColumn < SPECTROGRAM_WIDTH := by
  rw [ensureBufferCanvas]
  rcases hsd : s.data with _ | d
  · rw [if_neg (by rintro ⟨h1, -⟩; simp at h1)]
    show (0:ℕ) < SPECTROGRAM_WIDTH
    rw [SPECTROGRAM_WIDTH]
    norm_num
  · split_ifs with h1 h2
    · exact h
    · exact h
    · show (0:ℕ) < SPECTROGRAM_WIDTH
      rw [SPECTROGRAM_WIDTH]
      norm_num

set_option maxHeartbeats 600000 in
/-- C8 (amended): each `renderSpectrogramColumn` call writes the new
color-mapped column at the pre-advance cursor position and then advances the
cursor by exactly one mod `W = 2048`, so the cursor always stays in `[0, W)`;
after the call the cursor points at the oldest column (the next to be
overwritten), while the most recently written column sits at the pre-call
cursor, one slot behind it. -/
theorem C8_ring_cursor_amended (bandData : ℕ → ℝ) (numBands : ℕ) (minDb maxDb : ℝ)
    (height : ℕ) (colorMap : ColorMap) (gamma : ℝ) (frequencyScale : FrequencyScale)
    (s : SpectrogramBuffer) (hwc : s.writeColumn < SPECTROGRAM_WIDTH) :
    (renderSpectrogramColumn bandData numBands minDb maxDb height colorMap gamma
        frequencyScale s).writeColumn =
      ((ensureBufferCanvas height s).writeColumn + 1) % SPECTROGRAM_WIDTH ∧
    (renderSpectrogramColumn bandData numBands minDb maxDb height colorMap gamma
        frequencyScale s).writeColumn < SPECTROGRAM_WIDTH ∧
    (∀ y, y < height →
      (renderSpectrogramColumn bandData numBands minDb maxDb height colorMap gamma
          frequencyScale s).pix
        (y * SPECTROGRAM_WIDTH + (ensureBufferCanvas height s).writeColumn) =
        spectrogramPixel bandData numBands minDb maxDb height colorMap gamma
          frequencyScale y) ∧
    (∀ idx, idx % SPECTROGRAM_WIDTH ≠ (ensureBufferCanvas height s).writeColumn →
      (renderSpectrogramColumn bandData numBands minDb maxDb height colorMap gamma
          frequencyScale s).pix idx = (ensureBufferCanvas height s).pix idx) := by
  obtain ⟨d, hd⟩ := Option.isSome_iff_exists.1 (ensureBufferCanvas_isSome height s)
  have hwc1 : (ensureBufferCanvas height s).writeColumn < SPECTROGRAM_WIDTH :=
    ensureBufferCanvas_writeColumn_lt height s hwc
  have hr : renderSpectrogramColumn bandData numBands minDb maxDb height colorMap gamma
      frequencyScale s =
      { data := some fun idx =>
          if idx % SPECTROGRAM_WIDTH = (ensureBufferCanvas height s).writeColumn ∧
              idx / SPECTROGRAM_WIDTH < height then
            spectrogramPixel bandData numBands minDb maxDb height colorMap gamma
              frequencyScale (idx / SPECTROGRAM_WIDTH)
          else d idx
        bufferHeight := (ensureBufferCanvas height s).bufferHeight
        writeColumn := ((ensureBufferCanvas height s).writeColumn + 1) %
          SPECTROGRAM_WIDTH } := by
    rw [renderSpectrogramColumn, hd]
  have hWpos : 0 < SPECTROGRAM_WIDTH := by rw [SPECTROGRAM_WIDTH]; norm_num
  refine ⟨by rw [hr], by rw [hr]; exact Nat.mod_lt _ hWpos, ?_, ?_⟩
  · intro y hy
    rw [hr, SpectrogramBuffer.pix]
    have hdm : (y * SPECTROGRAM_WIDTH + (ensureBufferCanvas height s).writeColumn) %
        SPECTROGRAM_WIDTH = (ensureBufferCanvas height s).writeColumn ∧
        (y * SPECTROGRAM_WIDTH + (ensureBufferCanvas height s).writeColumn) /
        SPECTROGRAM_WIDTH = y := by
      rw [SPECTROGRAM_WIDTH] at hwc1 ⊢
      omega
    show (if _ ∧ _ then _ else _) = _
    rw [hdm.1, hdm.2, if_pos ⟨rfl, hy⟩]
  · intro idx hidx
    rw [hr, SpectrogramBuffer.pix, SpectrogramBuffer.pix, hd]
    show (if _ ∧ _ then _ else _) = _
    rw [if_neg (by rintro ⟨h1, -⟩; exact hidx h1)]

theorem createColorMapLUT_unfold (cm : ColorMap) (i : ℕ) : createColorMapLUT cm i =
    255 * 2 ^ 24 + (jsTrunc (colorMapRGB cm ((i : ℝ) / 255)).2.2).toNat * 2 ^ 16 +
    (jsTrunc (colorMapRGB cm ((i : ℝ) / 255)).2.1).toNat * 2 ^ 8 +
    (jsTrunc (colorMapRGB cm ((i : ℝ) / 255)).1).toNat := rfl

theorem colorMapRGB_grayscale_r (t : ℝ) :
    (colorMapRGB ColorMap.grayscale t).1 = t * 255 := rfl

theorem colorMapRGB_grayscale_g (t : ℝ) :
    (colorMapRGB ColorMap.grayscale t).2.1 = t * 255 := rfl

theorem colorMapRGB_grayscale_b (t : ℝ) :
    (colorMapRGB ColorMap.grayscale t).2.2 = t * 255 := rfl

/-- The column pixel computed in the C8 counterexample configuration:
1 band at 0 dB over a [-100, 0] range, grayscale map, `gamma = 1`,
height 2, row 0 — the brightest LUT entry `0xFFFFFFFF`. -/
theorem spectrogramPixel_c8_eval :
    spectrogramPixel (fun _ => 0) 1 (-100) 0 2 ColorMap.grayscale 1
      FrequencyScale.logarithmic 0 = 4294967295 := by
  simp only [spectrogramPixel]
  norm_num
  have hf : jsTrunc (255:ℝ) = (255:ℤ) := by
    rw [jsTrunc, if_pos (by norm_num : (0:ℝ) ≤ 255)]
    norm_num
  have hfn : ((255:ℤ)).toNat = 255 := rfl
  rw [hf, hfn, createColorMapLUT_unfold, colorMapRGB_grayscale_b, colorMapRGB_grayscale_g,
    colorMapRGB_grayscale_r]
  have ht : ((255:ℕ):ℝ) / 255 * 255 = 255 := by norm_num
  rw [ht, hf, hfn]
  norm_num

/-- C8 (counterexample): starting from the empty state and writing one
column, the cursor advances to 1, but column 1 still holds the background —
the most recently written data sits at column 0, the *pre*-advance cursor,
so "column `writeColumn` holds the most recently written spectrum" is false
after the call. -/
theorem C8_cursor_counterexample :
    (renderSpectrogramColumn (fun _ => 0) 1 (-100) 0 2 ColorMap.grayscale 1
      FrequencyScale.logarithmic ⟨none, 0, 0⟩).writeColumn = 1 ∧
    (renderSpectrogramColumn (fun _ => 0) 1 (-100) 0 2 ColorMap.grayscale 1
      FrequencyScale.logarithmic ⟨none, 0, 0⟩).pix (0 * SPECTROGRAM_WIDTH + 1) = BG_PIXEL ∧
    (renderSpectrogramColumn (fun _ => 0) 1 (-100) 0 2 ColorMap.grayscale 1
      FrequencyScale.logarithmic ⟨none, 0, 0⟩).pix (0 * SPECTROGRAM_WIDTH + 0) = 4294967295 ∧
    BG_PIXEL ≠ 4294967295 := by
  have h := C8_ring_cursor_amended (fun _ => 0) 1 (-100) 0 2 ColorMap.grayscale 1
    FrequencyScale.logarithmic ⟨none, 0, 0⟩ (by rw [SPECTROGRAM_WIDTH]; norm_num)
  have hens : ensureBufferCanvas 2 ⟨none, 0, 0⟩ =
      { data := some fun _ => BG_PIXEL, bufferHeight := 2, writeColumn := 0 } := by
    rw [ensureBufferCanvas]
    rw [if_neg (by rintro ⟨h1, -⟩; simp at h1)]
  refine ⟨?_, ?_, ?_, by norm_num [BG_PIXEL]⟩
  · rw [h.1, hens]
    show (0 + 1) % SPECTROGRAM_WIDTH = 1
    rw [SPECTROGRAM_WIDTH]
  · have := h.2.2.2 (0 * SPECTROGRAM_WIDTH + 1)
      (by rw [hens]; show (0 * SPECTROGRAM_WIDTH + 1) % SPECTROGRAM_WIDTH ≠ 0
          rw [SPECTROGRAM_WIDTH]; norm_num)
    rw [this, hens, SpectrogramBuffer.pix]
  · have := h.2.2.1 0 (by norm_num)
    rw [hens] at this
    show (renderSpectrogramColumn (fun _ => 0) 1 (-100) 0 2 ColorMap.grayscale 1
      FrequencyScale.logarithmic ⟨none, 0, 0⟩).pix (0 * SPECTROGRAM_WIDTH + 0) = 4294967295
    rw [this, spectrogramPixel_c8_eval]

/-- C8 witness: the amended theorem at the same concrete configuration —
cursor advance by one mod W, cursor in range, and the freshly written pixel
at the pre-advance cursor. -/
theorem C8_ring_cursor_witness :
    (renderSpectrogramColumn (fun _ => 0) 1 (-100) 0 2 ColorMap.grayscale 1
      FrequencyScale.logarithmic ⟨none, 0, 0⟩).writeColumn =
      ((ensureBufferCanvas 2 ⟨none, 0, 0⟩).writeColumn + 1) % SPECTROGRAM_WIDTH ∧
    (renderSpectrogramColumn (fun _ => 0) 1 (-100) 0 2 ColorMap.grayscale 1
      FrequencyScale.logarithmic ⟨none, 0, 0⟩).writeColumn < SPECTROGRAM_WIDTH := by
  have h := C8_ring_cursor_amended (fun _ => 0) 1 (-100) 0 2 ColorMap.grayscale 1
    FrequencyScale.logarithmic ⟨none, 0, 0⟩ (by rw [SPECTROGRAM_WIDTH]; norm_num)
  exact ⟨h.1, h.2.1⟩

/-! Bar/line/peak renderers from `rtaRender.ts`.  The canvas context is
modelled as the list of drawing commands a call emits; the cached geometry
arrays (`xStarts`, `barWidths`, `xCenters`) are index functions.  The 8-way
unrolled loops of the source emit the same commands as the plain loops
modelled here.  The scratch `yCoords` agrees with `bandY` at every index the
second bar pass reads, so it is not modelled separately. -/

inductive RenderOp where
  | beginPath
  | rect (x y w h : ℝ)
  | moveTo (x y : ℝ)
  | lineTo (x y : ℝ)
  | quadraticCurveTo (cpx cpy x y : ℝ)
  | closePath
  | fill
  | stroke

/-- `y = h - h*dbRangeInv*bd[i] + h*minDb*dbRangeInv`, the bar/line vertical
coordinate for band `i`. -/
def bandY (height dbRangeInv minDb : ℝ) (bandData : List ℝ) (i : ℕ) : ℝ :=
  height - height * dbRangeInv * bandData.getD i 0 + height * minDb * dbRangeInv

/-- `y = height * (1 - (db - minDb) * dbRangeInv)`, the peak polyline
vertical coordinate. -/
def peakY (height minDb dbRangeInv : ℝ) (peakData : List ℝ) (i : ℕ) : ℝ :=
  height * (1 - (peakData.getD i 0 - minDb) * dbRangeInv)

/-- `renderBars` from `rtaRender.ts`: `n = min(bands.length, bandData.length)`
bars (skipping silent bars with `y ≥ h`), then a 2-px highlight strip pass. -/
def renderBars (height : ℝ) (bands : List RtaBandDef) (bandData : List ℝ)
    (xs bw : ℕ → ℝ) (minDb dbRangeInv : ℝ) : List RenderOp :=
  if min bands.length bandData.length = 0 then [] else
  RenderOp.beginPath ::
  ((List.range (min bands.length bandData.length)).filterMap fun i =>
    if bandY height dbRangeInv minDb bandData i < height then
      some (RenderOp.rect (xs i) (bandY height dbRangeInv minDb bandData i) (bw i)
        (height - bandY height dbRangeInv minDb bandData i))
    else none) ++
  RenderOp.fill :: RenderOp.beginPath ::
  ((List.range (min bands.length bandData.length)).filterMap fun i =>
    if bandY height dbRangeInv minDb bandData i < height then
      some (RenderOp.rect (xs i) (bandY height dbRangeInv minDb bandData i) (bw i) 2)
    else none) ++
  [RenderOp.fill]

/-- `renderLine` from `rtaRender.ts`: a midpoint-smoothed filled area plus a
stroked outline through the first `n = min(bands.length, bandData.length)`
band centers (no-op for `n < 2`). -/
def renderLine (height : ℝ) (bands : List RtaBandDef) (bandData : List ℝ)
    (xc : ℕ → ℝ) (minDb dbRangeInv : ℝ) : List RenderOp :=
  if min bands.length bandData.length < 2 then [] else
  RenderOp.beginPath ::
  RenderOp.moveTo (xc 0) height ::
  RenderOp.lineTo (xc 0) (bandY height dbRangeInv minDb bandData 0) ::
  ((List.range (min bands.length bandData.length - 1)).map fun j =>
    RenderOp.quadraticCurveTo (xc j) (bandY height dbRangeInv minDb bandData j)
      ((xc j + xc (j + 1)) * 0.5)
      ((bandY height dbRangeInv minDb bandData j +
        bandY height dbRangeInv minDb bandData (j + 1)) * 0.5)) ++
  RenderOp.lineTo (xc (min bands.length bandData.length - 1))
    (bandY height dbRangeInv minDb bandData (min bands.length bandData.length - 1)) ::
  RenderOp.lineTo (xc (min bands.length bandData.length - 1)) height ::
  RenderOp.closePath :: RenderOp.fill ::
  RenderOp.beginPath ::
  RenderOp.moveTo (xc 0) (bandY height dbRangeInv minDb bandData 0) ::
  ((List.range (min bands.length bandData.length - 1)).map fun j =>
    RenderOp.quadraticCurveTo (xc j) (bandY height dbRangeInv minDb bandData j)
      ((xc j + xc (j + 1)) * 0.5)
      ((bandY height dbRangeInv minDb bandData j +
        bandY height dbRangeInv minDb bandData (j + 1)) * 0.5)) ++
  [RenderOp.lineTo (xc (min bands.length bandData.length - 1))
    (bandY height dbRangeInv minDb bandData (min bands.length bandData.length - 1)),
   RenderOp.stroke]

/-- `renderPeaks` from `rtaRender.ts`: a polyline through the first
`numBands = min(bands.length, peakData.length)` peak values. -/
def renderPeaks (height : ℝ) (bands : List RtaBandDef) (peakData : List ℝ)
    (xc : ℕ → ℝ) (minDb dbRangeInv : ℝ) : List RenderOp :=
  if min bands.length peakData.length = 0 then [] else
  RenderOp.beginPath ::
  RenderOp.moveTo (xc 0) (peakY height minDb dbRangeInv peakData 0) ::
  ((List.range (min bands.length peakData.length - 1)).map fun j =>
    RenderOp.lineTo (xc (j + 1)) (peakY height minDb dbRangeInv peakData (j + 1))) ++
  [RenderOp.stroke]

theorem getD_take {l : List ℝ} {n i : ℕ} (h : i < n) :
    (l.take n).getD i 0 = l.getD i 0 := by
  rcases Nat.lt_or_ge i l.length with hi | hi
  · rw [List.getD_eq_getElem?_getD, List.getD_eq_getElem?_getD, List.getElem?_take, if_pos h]
  · rw [List.getD_eq_default _ _ (by simp [List.length_take]; omega),
      List.getD_eq_default _ _ hi]

theorem bandY_take (height dbRangeInv minDb : ℝ) (bandData : List ℝ) {n i : ℕ}
    (h : i < n) :
    bandY height dbRangeInv minDb (bandData.take n) i = bandY height dbRangeInv minDb bandData i := by
  rw [bandY, bandY, getD_take h]

theorem peakY_take (height minDb dbRangeInv : ℝ) (peakData : List ℝ) {n i : ℕ}
    (h : i < n) :
    peakY height minDb dbRangeInv (peakData.take n) i = peakY height minDb dbRangeInv peakData i := by
  rw [peakY, peakY, getD_take h]

theorem renderBars_take_eq (height : ℝ) (bands : List RtaBandDef) (bandData : List ℝ)
    (xs bw : ℕ → ℝ) (minDb dbRangeInv : ℝ) :
    renderBars height bands bandData xs bw minDb dbRangeInv =
      renderBars height (bands.take (min bands.length bandData.length))
        (bandData.take (min bands.length bandData.length)) xs bw minDb dbRangeInv := by
  have hlen : min (bands.take (min bands.length bandData.length)).length
      (bandData.take (min bands.length bandData.length)).length
      = min bands.length bandData.length := by
    simp [List.length_take]
  rw [renderBars, renderBars, hlen]
  split_ifs with h0
  · rfl
  · have hA : ((List.range (min bands.length bandData.length)).filterMap fun i =>
        if bandY height dbRangeInv minDb
            (bandData.take (min bands.length bandData.length)) i < height then
          some (RenderOp.rect (xs i)
            (bandY height dbRangeInv minDb
              (bandData.take (min bands.length bandData.length)) i) (bw i)
            (height - bandY height dbRangeInv minDb
              (bandData.take (min bands.length bandData.length)) i))
        else none) =
        ((List.range (min bands.length bandData.length)).filterMap fun i =>
        if bandY height dbRangeInv minDb bandData i < height then
          some (RenderOp.rect (xs i) (bandY height dbRangeInv minDb bandData i) (bw i)
            (height - bandY height dbRangeInv minDb bandData i))
        else none) := by
      apply List.filterMap_congr
      intro i hi
      rw [bandY_take _ _ _ _ (List.mem_range.mp hi)]
    have hB : ((List.range (min bands.length bandData.length)).filterMap fun i =>
        if bandY height dbRangeInv minDb
            (bandData.take (min bands.length bandData.length)) i < height then
          some (RenderOp.rect (xs i)
            (bandY height dbRangeInv minDb
              (bandData.take (min bands.length bandData.length)) i) (bw i) 2)
        else none) =
        ((List.range (min bands.length bandData.length)).filterMap fun i =>
        if bandY height dbRangeInv minDb bandData i < height then
          some (RenderOp.rect (xs i) (bandY height dbRangeInv minDb bandData i) (bw i) 2)
        else none) := by
      apply List.filterMap_congr
      intro i hi
      rw [bandY_take _ _ _ _ (List.mem_range.mp hi)]
    rw [hA, hB]

theorem renderLine_take_eq (height : ℝ) (bands : List RtaBandDef) (bandData : List ℝ)
    (xc : ℕ → ℝ) (minDb dbRangeInv : ℝ) :
    renderLine height bands bandData xc minDb dbRangeInv =
      renderLine height (bands.take (min bands.length bandData.length))
        (bandData.take (min bands.length bandData.length)) xc minDb dbRangeInv := by
  have hlen : min (bands.take (min bands.length bandData.length)).length
      (bandData.take (min bands.length bandData.length)).length
      = min bands.length bandData.length := by
    simp [List.length_take]
  rw [renderLine, renderLine, hlen]
  split_ifs with h0
  · rfl
  · have hn2 : 2 ≤ min bands.length bandData.length := by omega
    have h0lt : 0 < min bands.length bandData.length := by omega
    have hlast : min bands.length bandData.length - 1 < min bands.length bandData.length := by
      omega
    have hmap : ((List.range (min bands.length bandData.length - 1)).map fun j =>
        RenderOp.quadraticCurveTo (xc j)
          (bandY height dbRangeInv minDb
            (bandData.take (min bands.length bandData.length)) j)
          ((xc j + xc (j + 1)) * 0.5)
          ((bandY height dbRangeInv minDb
              (bandData.take (min bands.length bandData.length)) j +
            bandY height dbRangeInv minDb
              (bandData.take (min bands.length bandData.length)) (j + 1)) * 0.5)) =
        ((List.range (min bands.length bandData.length - 1)).map fun j =>
        RenderOp.quadraticCurveTo (xc j) (bandY height dbRangeInv minDb bandData j)
          ((xc j + xc (j + 1)) * 0.5)
          ((bandY height dbRangeInv minDb bandData j +
            bandY height dbRangeInv minDb bandData (j + 1)) * 0.5)) := by
      apply List.map_congr_left
      intro j hj
      have hj1 := List.mem_range.mp hj
      rw [bandY_take _ _ _ _ (show j < min bands.length bandData.length by omega),
        bandY_take _ _ _ _ (show j + 1 < min bands.length bandData.length by omega)]
    rw [hmap, bandY_take _ _ _ _ h0lt, bandY_take _ _ _ _ hlast]

theorem renderPeaks_take_eq (height : ℝ) (bands : List RtaBandDef) (peakData : List ℝ)
    (xc : ℕ → ℝ) (minDb dbRangeInv : ℝ) :
    renderPeaks height bands peakData xc minDb dbRangeInv =
      renderPeaks height (bands.take (min bands.length peakData.length))
        (peakData.take (min bands.length peakData.length)) xc minDb dbRangeInv := by
  have hlen : min (bands.take (min bands.length peakData.length)).length
      (peakData.take (min bands.length peakData.length)).length
      = min bands.length peakData.length := by
    simp [List.length_take]
  rw [renderPeaks, renderPeaks, hlen]
  split_ifs with h0
  · rfl
  · have h0lt : 0 < min bands.length peakData.length := by omega
    have hmap : ((List.range (min bands.length peakData.length - 1)).map fun j =>
        RenderOp.lineTo (xc (j + 1))
          (peakY height minDb dbRangeInv
            (peakData.take (min bands.length peakData.length)) (j + 1))) =
        ((List.range (min bands.length peakData.length - 1)).map fun j =>
        RenderOp.lineTo (xc (j + 1)) (peakY height minDb dbRangeInv peakData (j + 1))) := by
      apply List.map_congr_left
      intro j hj
      have hj1 := List.mem_range.mp hj
      rw [peakY_take _ _ _ _ (show j + 1 < min bands.length peakData.length by omega)]
    rw [hmap, peakY_take _ _ _ _ h0lt]

/-- C9 (amended): on a band-list / data-array length mismatch the three
renderers consume only the overlapping prefix — each call emits exactly the
commands it would emit on both arrays truncated to
`min (bands.length) (data.length)` — and the frame processor leaves every
per-band slot at an index `≥ prepared.bandCount` untouched; but the
processor itself has no `min` guard against the data arrays (see the
counterexample). -/
theorem C9_prefix_handling_amended :
    (∀ (height : ℝ) (bands : List RtaBandDef) (bandData : List ℝ)
        (xs bw : ℕ → ℝ) (minDb dbRangeInv : ℝ),
      renderBars height bands bandData xs bw minDb dbRangeInv =
        renderBars height (bands.take (min bands.length bandData.length))
          (bandData.take (min bands.length bandData.length)) xs bw minDb dbRangeInv) ∧
    (∀ (height : ℝ) (bands : List RtaBandDef) (bandData : List ℝ)
        (xc : ℕ → ℝ) (minDb dbRangeInv : ℝ),
      renderLine height bands bandData xc minDb dbRangeInv =
        renderLine height (bands.take (min bands.length bandData.length))
          (bandData.take (min bands.length bandData.length)) xc minDb dbRangeInv) ∧
    (∀ (height : ℝ) (bands : List RtaBandDef) (peakData : List ℝ)
        (xc : ℕ → ℝ) (minDb dbRangeInv : ℝ),
      renderPeaks height bands peakData xc minDb dbRangeInv =
        renderPeaks height (bands.take (min bands.length peakData.length))
          (peakData.take (min bands.length peakData.length)) xc minDb dbRangeInv) ∧
    (∀ (f : ℕ → ℝ) (p : PreparedBands) (st : ProcessingState)
        (pr : ProcessingParams) (i : ℕ), p.bandCount ≤ i →
      (process f p st pr).smoothedLinear i = st.smoothedLinear i ∧
      (process f p st pr).peaksLinear i = st.peaksLinear i ∧
      (process f p st pr).peakHoldCounters i = st.peakHoldCounters i) :=
  ⟨renderBars_take_eq, renderLine_take_eq, renderPeaks_take_eq,
   fun f p st pr _ hi =>
     ⟨process_smoothedLinear_out f p st pr hi,
      process_peaksLinear_out f p st pr hi,
      process_peakHoldCounters_out f p st pr hi⟩⟩

/-- C9 (counterexample): the processor does not clamp its loop to the length
of the per-band data arrays.  With `prepared.bandCount = 2` but a
`smoothedLinear` array of length 1 (modelled as `[7]` with out-of-range
marker 5), a silent `process` call overwrites slot 1 with `minLinear`, i.e.
it processes past the overlapping prefix `min (bands.length) (data.length) = 1`
instead of stopping there. -/
theorem C9_process_no_guard_counterexample :
    ((process (fun _ => (-200 : ℝ)) ⟨fun _ => 0, fun _ => 0, 2⟩
        ⟨fun i => ([7] : List ℝ).getD i 5, fun i => ([7] : List ℝ).getD i 5,
          fun _ => 0, fun _ => -100, fun _ => -100, 1 / 2⟩
        ⟨-3, 0, false, 1 / 2, 1⟩).smoothedLinear 1 = 1 / 2) ∧
    ([7] : List ℝ).length = 1 ∧
    ([7] : List ℝ).getD 1 5 = 5 ∧ (1 / 2 : ℝ) ≠ 5 := by
  refine ⟨?_, rfl, by simp, by norm_num⟩
  rw [process_smoothedLinear_in _ _ _ _ (by norm_num)]
  rw [bandSmoothed_silent _ _ _ _ (fun bin => by rw [DB_MIN]; norm_num) rfl (le_refl 0)
    (by rw [MIN_LINEAR_POWER_eq]; norm_num)]
  rw [if_neg (lt_irrefl _)]

theorem C9_prefix_handling_witness :
    (2 : ℕ) ≤ 3 ∧
    (process (fun _ => 0) ⟨fun _ => 0, fun _ => 0, 2⟩
        ⟨fun _ => 0, fun _ => 0, fun _ => 0, fun _ => 0, fun _ => 0, 0⟩
        ⟨0, 0, true, 0, 0⟩).smoothedLinear 3 =
      (⟨fun _ => 0, fun _ => 0, fun _ => 0, fun _ => 0, fun _ => 0, 0⟩ :
        ProcessingState).smoothedLinear 3 :=
  ⟨by norm_num,
   (C9_prefix_handling_amended.2.2.2 (fun _ => 0) ⟨fun _ => 0, fun _ => 0, 2⟩
     ⟨fun _ => 0, fun _ => 0, fun _ => 0, fun _ => 0, fun _ => 0, 0⟩
     ⟨0, 0, true, 0, 0⟩ 3 (by norm_num)).1⟩

end Rta
